import Mathlib

/-!
# go-chess: a shallow embedding of the rules engine (package `game`)

The Go sources `board.go`, `square.go`, `colour.go`, `move.go` and `game.go` are
embedded as Lean functions.

Representation choices.

* A Go `string` is a sequence of bytes: `GoString := List (Fin 256)`.  Byte
  arithmetic (`position[0] - 'a'`) is written on naturals with an explicit
  `% 256`.
* `Board.squares` is the 8×8 grid `NewBoard` allocates; the `Square` stored at
  index `(i, j)` has `row = i`, `col = j` and nothing ever writes these two
  fields.  A `*Square` into the grid is therefore represented by its index, a
  `SquareRef`, and the grid by the map from indices to occupants.
* A `*Piece` held by a square is represented by the value of the `Piece` it
  points to; `nil` is `none`.  Each `Piece` object is referenced by at most one
  square (`initPiece` allocates a fresh one per square and `movePiece` keeps it
  so), hence writing `piece.row`, `piece.col` through the pointer is an update
  of the occupant of the square that holds the piece.
* A Go panic is an `Except.error`; a method that mutates the board returns the
  board it leaves behind next to its result, also when it panics (the caller
  `ChessGame.execute` recovers and plays on with that board).
* A method with a value receiver (`func (b Board) ...`) works on a copy of the
  three slice headers: its writes to squares and pieces are shared with the
  caller, its appends to the capture lists are not.
* A Go `int` is an unbounded integer.  The only arithmetic on rows and columns
  is `'a'+col` and `'0'-row+boardSize` under `string(...)`, and a sum that
  would wrap in 64 bits is an invalid code point wrapped or not, so the string
  is the same.
* `piece.go` is not among the sources.  What `board.go` uses of it (the string
  constants `WhiteKing`, `BlackKing`, the functions `createPiece`, `getMoves`,
  `isKing`, and the method `Piece.String`) is a parameter, `PieceOps`.
-/

namespace GoChess

/-! ## Strings -/

/-- A Go string: a sequence of bytes. -/
abbrev GoString := List (Fin 256)

/-- The Go string with the given ASCII characters. -/
def ascii (cs : List Char) : GoString := cs.map (fun c => Fin.ofNat c.toNat)

/-- The one-byte string `" "`. -/
def space : GoString := [32]

/-- Go's `string(r)` for an integer `r`: the UTF-8 encoding of the code point
`r`, and of U+FFFD when `r` is not a valid code point. -/
def runeString (r : Int) : GoString :=
  let n := r.toNat
  if r < 0 then [0xEF, 0xBF, 0xBD]
  else if n < 0x80 then [Fin.ofNat n]
  else if n < 0x800 then [Fin.ofNat (0xC0 + n / 64), Fin.ofNat (0x80 + n % 64)]
  else if 0xD800 ≤ n ∧ n < 0xE000 then [0xEF, 0xBF, 0xBD]
  else if n < 0x10000 then
    [Fin.ofNat (0xE0 + n / 4096), Fin.ofNat (0x80 + n / 64 % 64), Fin.ofNat (0x80 + n % 64)]
  else if n < 0x110000 then
    [Fin.ofNat (0xF0 + n / 262144), Fin.ofNat (0x80 + n / 4096 % 64),
      Fin.ofNat (0x80 + n / 64 % 64), Fin.ofNat (0x80 + n % 64)]
  else [0xEF, 0xBF, 0xBD]

/-- Go's `strings.Split(s, sep)` for a one-byte separator. -/
def splitOn (sep : Fin 256) : GoString → List GoString
  | [] => [[]]
  | c :: cs =>
    if c = sep then [] :: splitOn sep cs
    else
      match splitOn sep cs with
      | [] => [[c]]
      | t :: ts => (c :: t) :: ts

/-! ## colour.go -/

/-- The type `Colour` with its three constants. -/
inductive Colour where
  | undecided
  | white
  | black
deriving DecidableEq, Repr

/-- `getOpponentColour`. -/
def getOpponentColour (curColour : Colour) : Colour :=
  if curColour = Colour.black then Colour.white else Colour.black

/-! ## Pieces, squares, the board -/

/-- The fields of `Piece` that `board.go` reads and writes. -/
structure Piece where
  sign : GoString
  colour : Colour
  row : Int
  col : Int
deriving DecidableEq, Repr

/-- A pointer to a square of the grid: its row and column index. -/
abbrev SquareRef := Fin 8 × Fin 8

/-- The field `row` of the square a reference points to. -/
def SquareRef.row (s : SquareRef) : Int := (s.1.val : Int)

/-- The field `col` of the square a reference points to. -/
def SquareRef.col (s : SquareRef) : Int := (s.2.val : Int)

/-- The struct `Square` (square.go), as a value. -/
structure Square where
  row : Int
  col : Int
  piece : Option Piece
deriving DecidableEq, Repr

/-- `Square.hasPiece`. -/
def Square.hasPiece (s : Square) : Bool := s.piece.isSome

/-- `Square.getPiece`. -/
def Square.getPiece (s : Square) : Option Piece := s.piece

/-- The struct `Board`. -/
structure Board where
  squares : SquareRef → Option Piece
  whiteCaptures : List GoString
  blackCaptures : List GoString

/-- The value `b.squares[i][j]` of the square a reference points to. -/
def Board.squareAt (b : Board) (s : SquareRef) : Square :=
  { row := s.row, col := s.col, piece := b.squares s }

/-- The constant `boardSize`. -/
def boardSize : Nat := 8

/-- The indices `0 .. boardSize - 1` in loop order. -/
def indices : List (Fin 8) := [0, 1, 2, 3, 4, 5, 6, 7]

/-- The squares in the order of the loops `for i { for j { ... } }`. -/
def allSquares : List SquareRef :=
  (indices.map (fun i => indices.map (fun j => (i, j)))).flatten

/-- `NewBoard`. -/
def NewBoard : Board :=
  { squares := fun _ => none, whiteCaptures := [], blackCaptures := [] }

/-- `Square.setPiece` on a square of the grid. -/
def Board.setPiece (b : Board) (s : SquareRef) (piece : Option Piece) : Board :=
  { b with squares := Function.update b.squares s piece }

/-- What a Go panic carries. -/
inductive Panic where
  /-- `panic(illegalMove)` -/
  | illegalMove
  /-- `panic("initPiece() failed on positon: " + position)` -/
  | initPieceFailed (position : GoString)
  /-- `panic("Error: Cannot find King from the board")` -/
  | kingNotFound
  /-- a run-time panic: index out of range -/
  | indexOutOfRange
  /-- a run-time panic: nil pointer dereference -/
  | nilDereference
deriving DecidableEq, Repr

deriving instance DecidableEq for Except

/-! ## move.go -/

/-- `containsMove`. -/
def containsMove (moves : List GoString) (move : GoString) : Bool :=
  moves.any (fun element => decide (move = element))

/-- `getCoordinatePosition`: `(string)('a'+col) + (string)('0'-row+boardSize)`. -/
def getCoordinatePosition (row col : Int) : GoString :=
  runeString (97 + col) ++ runeString (48 - row + (boardSize : Int))

/-- `getSquarePosition`. -/
def getSquarePosition (square : Square) : GoString :=
  getCoordinatePosition square.row square.col

/-- The struct `Move`; `piece` is never nil in a `Move` that `checkMove` returns. -/
structure Move where
  piece : Piece
  squareFrom : SquareRef
  squareTo : SquareRef
deriving DecidableEq, Repr

/-- The two error values `checkMove` returns. -/
inductive MoveError where
  /-- `errors.New(illegalMove)` -/
  | illegalMove
  /-- `errors.New(causingSelfCheck)` -/
  | causingSelfCheck
deriving DecidableEq, Repr

/-! ## board.go: reading the board -/

/-- `Board.getSquare`: `nil` is `none`; indexing the string past its end panics. -/
def Board.getSquare (_b : Board) (position : GoString) : Except Panic (Option SquareRef) :=
  match position with
  | [] => Except.error Panic.indexOutOfRange
  | p0 :: rest =>
    let col : Int := (((p0.val + 256 - 97) % 256 : Nat) : Int)
    if col < 0 ∨ col ≥ (boardSize : Int) then Except.ok none
    else
      match rest with
      | [] => Except.error Panic.indexOutOfRange
      | p1 :: _ =>
        let row : Int := (((p1.val + 256 - 48) % 256 : Nat) : Int) * (-1) + (boardSize : Int)
        if row < 0 ∨ row ≥ (boardSize : Int) then Except.ok none
        else Except.ok (some (Fin.ofNat row.toNat, Fin.ofNat col.toNat))

/-! ## piece.go, as far as board.go uses it -/

/-- The part of `piece.go` that `board.go` calls.  `String` is `Piece.String`,
the symbol of a piece: it is given the sign and the colour, the two fields of a
piece that never change. -/
structure PieceOps where
  WhiteKing : GoString
  BlackKing : GoString
  String : GoString → Colour → GoString
  isKing : Piece → Bool
  createPiece : GoString → Int → Int → Piece
  getMoves : Board → Piece → List GoString

/-- `piece.String()`. -/
def PieceOps.pieceString (E : PieceOps) (piece : Piece) : GoString :=
  E.String piece.sign piece.colour

/-! ## board.go: queries -/

/-- `Board.canMoveTo`. -/
def Board.canMoveTo (b : Board) (position : GoString) (colour : Colour) : Except Panic Bool :=
  match b.getSquare position with
  | Except.error e => Except.error e
  | Except.ok none => Except.ok false
  | Except.ok (some square) =>
    match (b.squareAt square).getPiece with
    | none => Except.ok true
    | some piece => Except.ok (decide (piece.colour ≠ colour))

/-- `Board.isEmptyAt`. -/
def Board.isEmptyAt (b : Board) (position : GoString) : Except Panic Bool :=
  match b.getSquare position with
  | Except.error e => Except.error e
  | Except.ok none => Except.ok false
  | Except.ok (some square) => Except.ok (!(b.squareAt square).hasPiece)

/-- The symbol `getKingPosition` looks for. -/
def PieceOps.kingSymbol (E : PieceOps) (colour : Colour) : GoString :=
  if colour = Colour.white then E.WhiteKing else E.BlackKing

/-- The test of the inner loop of `getKingPosition`. -/
def Board.holdsKing (E : PieceOps) (b : Board) (kingSymbol : GoString) (s : SquareRef) : Bool :=
  match (b.squareAt s).getPiece with
  | none => false
  | some piece => decide (E.pieceString piece = kingSymbol)

/-- `Board.getKingPosition`: the first square in loop order that holds the
King's symbol; a panic when the loops end. -/
def Board.getKingPosition (E : PieceOps) (b : Board) (colour : Colour) : Except Panic GoString :=
  let kingSymbol := E.kingSymbol colour
  match allSquares.find? (b.holdsKing E kingSymbol) with
  | some s => Except.ok (getSquarePosition (b.squareAt s))
  | none => Except.error Panic.kingNotFound

/-- `Board.getAllPieces`: copies of the pieces of a colour, in loop order. -/
def Board.getAllPieces (b : Board) (colour : Colour) : List Piece :=
  allSquares.filterMap (fun s =>
    match (b.squareAt s).getPiece with
    | none => none
    | some piece => if piece.colour = colour then some piece else none)

/-- `Board.getReachablePositions`. -/
def Board.getReachablePositions (E : PieceOps) (b : Board) (colour : Colour) : List GoString :=
  ((b.getAllPieces colour).map (fun piece => E.getMoves b piece)).flatten

/-- `Board.inCheck`. -/
def Board.inCheck (E : PieceOps) (b : Board) (curColour : Colour) : Except Panic Bool :=
  match b.getKingPosition E curColour with
  | Except.error e => Except.error e
  | Except.ok kingPosition =>
    let opponentPositions := b.getReachablePositions E (getOpponentColour curColour)
    Except.ok (opponentPositions.any (fun position => decide (kingPosition = position)))

/-- `Board.getThreateningKingPieces`. -/
def Board.getThreateningKingPieces (E : PieceOps) (b : Board) (colour : Colour) :
    Except Panic (List Piece) :=
  match b.getKingPosition E colour with
  | Except.error e => Except.error e
  | Except.ok kingPosition =>
    Except.ok ((b.getAllPieces (getOpponentColour colour)).filter
      (fun opponentPiece => containsMove (E.getMoves b opponentPiece) kingPosition))

/-- `Board.getAvailableMovesByMovingKing`. -/
def Board.getAvailableMovesByMovingKing (E : PieceOps) (b : Board) (colour : Colour) :
    Except Panic (List GoString) :=
  match b.getKingPosition E colour with
  | Except.error e => Except.error e
  | Except.ok kingPosition =>
    match b.getSquare kingPosition with
    | Except.error e => Except.error e
    | Except.ok none => Except.error Panic.nilDereference
    | Except.ok (some square) =>
      match b.squares square with
      | none => Except.error Panic.nilDereference
      | some kingPiece =>
        let opponentMoves := b.getReachablePositions E (getOpponentColour colour)
        Except.ok (((E.getMoves b kingPiece).filter
          (fun kingMove => !containsMove opponentMoves kingMove)).map
          (fun kingMove => kingPosition ++ space ++ kingMove))

/-! ## board.go: moving pieces -/

/-- `Board.captured`. -/
def Board.captured (b : Board) (capturedPiece : Piece) : Board :=
  let colour := getOpponentColour capturedPiece.colour
  let sign := capturedPiece.sign
  match colour with
  | Colour.white => { b with whiteCaptures := b.whiteCaptures ++ [sign] }
  | Colour.black => { b with blackCaptures := b.blackCaptures ++ [sign] }
  | Colour.undecided => b

/-- `Board.movePiece`.  With a nil `piece` the two squares are already emptied
when `piece.row = ...` panics. -/
def Board.movePiece (b : Board) (piece : Option Piece) (squareFrom squareTo : SquareRef) :
    Except Panic Unit × Board :=
  let capturedPiece := b.squares squareTo
  let b1 := match capturedPiece with
    | some q => b.captured q
    | none => b
  let b2 := b1.setPiece squareFrom none
  let b3 := b2.setPiece squareTo piece
  match piece with
  | none => (Except.error Panic.nilDereference, b3)
  | some p =>
    (Except.ok (), b3.setPiece squareTo (some { p with row := squareTo.row, col := squareTo.col }))

/-- `Board.moveWillCauseSelfCheck`.  The receiver is a copy: the squares it
leaves are the caller's, the capture lists it appended to are not.  The last
line, `squareTo.setPiece(pieceTo)`, stores the pointer read at the start; when
the two squares are one, the piece it points to is the one just moved back. -/
def Board.moveWillCauseSelfCheck (E : PieceOps) (b : Board) (positionFrom positionTo : GoString)
    (colour : Colour) : Except Panic Bool × Board :=
  match b.getSquare positionFrom with
  | Except.error e => (Except.error e, b)
  | Except.ok squareFrom =>
    match b.getSquare positionTo with
    | Except.error e => (Except.error e, b)
    | Except.ok squareTo =>
      match squareFrom with
      | none => (Except.error Panic.nilDereference, b)
      | some sf =>
        let pieceFrom := b.squares sf
        match squareTo with
        | none => (Except.error Panic.nilDereference, b)
        | some st =>
          let pieceTo := b.squares st
          match b.movePiece pieceFrom sf st with
          | (Except.error e, b1) => (Except.error e, { b with squares := b1.squares })
          | (Except.ok _, b1) =>
            match b1.inCheck E colour with
            | Except.error e => (Except.error e, { b with squares := b1.squares })
            | Except.ok selfInCheck =>
              match b1.movePiece pieceFrom st sf with
              | (Except.error e, b2) => (Except.error e, { b with squares := b2.squares })
              | (Except.ok _, b2) =>
                let pieceToNow := if st = sf then b2.squares sf else pieceTo
                (Except.ok selfInCheck, { b with squares := (b2.setPiece st pieceToNow).squares })

/-- The inner loop of `getAvailableMovesByMovingOtherPieces`, over the moves of
one piece. -/
def Board.tryMoves (E : PieceOps) (positionFrom threatenPosition : GoString) (colour : Colour) :
    List GoString → Board → List GoString → Except Panic (List GoString) × Board
  | [], b, moves => (Except.ok moves, b)
  | positionTo :: rest, b, moves =>
    match b.moveWillCauseSelfCheck E positionFrom positionTo colour with
    | (Except.error e, b1) => (Except.error e, b1)
    | (Except.ok selfCheck, b1) =>
      Board.tryMoves E positionFrom threatenPosition colour rest b1
        (if !selfCheck then moves ++ [positionFrom ++ space ++ threatenPosition] else moves)

/-- The outer loop of `getAvailableMovesByMovingOtherPieces`, over the pieces
`getAllPieces` returned. -/
def Board.tryPieces (E : PieceOps) (threatenPosition : GoString) (colour : Colour) :
    List Piece → Board → List GoString → Except Panic (List GoString) × Board
  | [], b, moves => (Except.ok moves, b)
  | ownPiece :: rest, b, moves =>
    if E.isKing ownPiece then Board.tryPieces E threatenPosition colour rest b moves
    else
      let positionFrom := getCoordinatePosition ownPiece.row ownPiece.col
      match Board.tryMoves E positionFrom threatenPosition colour (E.getMoves b ownPiece) b moves with
      | (Except.error e, b1) => (Except.error e, b1)
      | (Except.ok moves1, b1) => Board.tryPieces E threatenPosition colour rest b1 moves1

/-- `Board.getAvailableMovesByMovingOtherPieces`. -/
def Board.getAvailableMovesByMovingOtherPieces (E : PieceOps) (b : Board) (colour : Colour) :
    Except Panic (List GoString) × Board :=
  match b.getThreateningKingPieces E colour with
  | Except.error e => (Except.error e, b)
  | Except.ok threatenKingPieces =>
    match threatenKingPieces with
    | [threatenPiece] =>
      let threatenPosition := getCoordinatePosition threatenPiece.row threatenPiece.col
      Board.tryPieces E threatenPosition colour (b.getAllPieces colour) b []
    | _ => (Except.ok [], b)

/-- `Board.getAvailableMovesInCheck`. -/
def Board.getAvailableMovesInCheck (E : PieceOps) (b : Board) (colour : Colour) :
    Except Panic (List GoString) × Board :=
  match b.getAvailableMovesByMovingKing E colour with
  | Except.error e => (Except.error e, b)
  | Except.ok kingMoves =>
    match b.getAvailableMovesByMovingOtherPieces E colour with
    | (Except.error e, b1) => (Except.error e, b1)
    | (Except.ok otherMoves, b1) => (Except.ok (kingMoves ++ otherMoves), b1)

/-- `Board.inCheckmate`: `b.inCheck(c) && len(b.getAvailableMovesInCheck(c)) == 0`. -/
def Board.inCheckmate (E : PieceOps) (b : Board) (curColour : Colour) : Except Panic Bool × Board :=
  match b.inCheck E curColour with
  | Except.error e => (Except.error e, b)
  | Except.ok false => (Except.ok false, b)
  | Except.ok true =>
    match b.getAvailableMovesInCheck E curColour with
    | (Except.error e, b1) => (Except.error e, b1)
    | (Except.ok moves, b1) => (Except.ok (decide (moves.length = 0)), b1)

/-- `Board.checkMove`. -/
def Board.checkMove (E : PieceOps) (b : Board) (origin destination : GoString) (colour : Colour) :
    Except Panic (Except MoveError Move) × Board :=
  match b.getSquare origin with
  | Except.error e => (Except.error e, b)
  | Except.ok none => (Except.ok (Except.error MoveError.illegalMove), b)
  | Except.ok (some squareFrom) =>
    match b.getSquare destination with
    | Except.error e => (Except.error e, b)
    | Except.ok none => (Except.ok (Except.error MoveError.illegalMove), b)
    | Except.ok (some squareTo) =>
      match (b.squareAt squareFrom).getPiece with
      | none => (Except.ok (Except.error MoveError.illegalMove), b)
      | some piece =>
        if piece.colour ≠ colour then (Except.ok (Except.error MoveError.illegalMove), b)
        else if !containsMove (E.getMoves b piece) destination then
          (Except.ok (Except.error MoveError.illegalMove), b)
        else
          match b.moveWillCauseSelfCheck E origin destination colour with
          | (Except.error e, b1) => (Except.error e, b1)
          | (Except.ok true, b1) => (Except.ok (Except.error MoveError.causingSelfCheck), b1)
          | (Except.ok false, b1) =>
            (Except.ok (Except.ok { piece := piece, squareFrom := squareFrom, squareTo := squareTo }), b1)

/-- The first block of `Board.execute`: the restriction while in check. -/
def Board.checkInCheck (E : PieceOps) (b : Board) (command : GoString) (colour : Colour) :
    Except Panic Unit × Board :=
  match b.inCheck E colour with
  | Except.error e => (Except.error e, b)
  | Except.ok false => (Except.ok (), b)
  | Except.ok true =>
    match b.getAvailableMovesInCheck E colour with
    | (Except.error e, b1) => (Except.error e, b1)
    | (Except.ok validMoves, b1) =>
      if !containsMove validMoves command then (Except.error Panic.illegalMove, b1)
      else (Except.ok (), b1)

/-- `Board.execute`. -/
def Board.execute (E : PieceOps) (b : Board) (command : GoString) (colour : Colour) :
    Except Panic Bool × Board :=
  match b.checkInCheck E command colour with
  | (Except.error e, b1) => (Except.error e, b1)
  | (Except.ok _, b1) =>
    match splitOn 32 command with
    | [origin, destination] =>
      match b1.checkMove E origin destination colour with
      | (Except.error e, b2) => (Except.error e, b2)
      | (Except.ok (Except.error _), b2) => (Except.ok false, b2)
      | (Except.ok (Except.ok move), b2) =>
        match b2.movePiece (some move.piece) move.squareFrom move.squareTo with
        | (Except.error e, b3) => (Except.error e, b3)
        | (Except.ok _, b3) => b3.inCheckmate E (getOpponentColour colour)
    | _ => (Except.error Panic.illegalMove, b1)

/-! ## board.go: setting up -/

/-- `Board.initPiece`. -/
def Board.initPiece (E : PieceOps) (b : Board) (position sign : GoString) :
    Except Panic Unit × Board :=
  match b.getSquare position with
  | Except.error e => (Except.error e, b)
  | Except.ok none => (Except.error (Panic.initPieceFailed position), b)
  | Except.ok (some square) =>
    if (b.squareAt square).hasPiece then (Except.error (Panic.initPieceFailed position), b)
    else (Except.ok (), b.setPiece square (some (E.createPiece sign square.row square.col)))

/-- `Board.setup`, on the three fields of a `TestCase` it reads; each initial
position is a pair (position, sign), the arguments of `initPiece`. -/
def Board.setup (E : PieceOps) (b : Board) (initialPositions : List (GoString × GoString))
    (whiteCaptures blackCaptures : List GoString) : Except Panic Unit × Board :=
  match initialPositions with
  | [] => (Except.ok (), { b with whiteCaptures := whiteCaptures, blackCaptures := blackCaptures })
  | ip :: rest =>
    match b.initPiece E ip.1 ip.2 with
    | (Except.error e, b1) => (Except.error e, b1)
    | (Except.ok _, b1) => Board.setup E b1 rest whiteCaptures blackCaptures

/-! ## game.go

Printing (`printAction`, `printGameStatus`, `endGameWithWinner`,
`endGameByDraw`) writes to the terminal and changes neither the board nor the
game; it is left out. -/

/-- The constant `MovesLimitCount`. -/
def MovesLimitCount : Int := 400

/-- The fields of `ChessGame` the rules engine reads and writes. -/
structure ChessGame where
  board : Board
  movesCount : Int
  curColour : Colour

/-- `ChessGame.changeTurn`. -/
def ChessGame.changeTurn (game : ChessGame) (goesNext : Bool) : ChessGame :=
  let movesCount := if goesNext then game.movesCount + 1 else game.movesCount - 1
  match game.curColour with
  | Colour.undecided => { game with movesCount := movesCount, curColour := Colour.white }
  | Colour.black => { game with movesCount := movesCount, curColour := Colour.white }
  | Colour.white => { game with movesCount := movesCount, curColour := Colour.black }

/-- `ChessGame.isDraw`. -/
def ChessGame.isDraw (game : ChessGame) : Bool := decide (game.movesCount ≥ MovesLimitCount)

/-- `ChessGame.execute`: the result `gameEnd` and the game afterwards.  A panic
of `Board.execute` is recovered by the deferred function, which calls
`changeTurn(false)`; the function then returns the zero value `false`. -/
def ChessGame.execute (E : PieceOps) (game : ChessGame) (command : GoString) :
    Bool × ChessGame :=
  match game.board.execute E command game.curColour with
  | (Except.error _, b1) => (false, ({ game with board := b1 } : ChessGame).changeTurn false)
  | (Except.ok _, b1) =>
    let game1 : ChessGame := { game with board := b1 }
    if game1.isDraw then (true, game1) else (false, game1)

/-! ## The movement policies of section 4.2 of the specification

`piece.go` is not among the sources; the concrete boards below use these
policies. -/

namespace SpecPieces

/-- Modelled from the spec: the side of a piece, missing with `piece.go`.  The
specification leaves the signs open; here an upper-case letter is a White piece
and a lower-case letter a Black piece. -/
def colourOfSign (sign : GoString) : Colour :=
  match sign with
  | [c] => if 65 ≤ c.val ∧ c.val ≤ 90 then Colour.white
           else if 97 ≤ c.val ∧ c.val ≤ 122 then Colour.black else Colour.undecided
  | _ => Colour.undecided

/-- Modelled from the spec: `createPiece`, missing with `piece.go`: a piece of
the given sign standing at the given row and column. -/
def createPiece (sign : GoString) (row col : Int) : Piece :=
  { sign := sign, colour := colourOfSign sign, row := row, col := col }

/-- Modelled from the spec: the kind letter of a sign (K, Q, R, B, N, P), as an
upper-case byte; the signs are missing with `piece.go`. -/
def kindOf (sign : GoString) : Nat :=
  match sign with
  | [c] => if 97 ≤ c.val ∧ c.val ≤ 122 then c.val - 32 else c.val
  | _ => 0

/-- A destination given by an offset from the piece, kept when `canMoveTo`
accepts it. -/
def step (b : Board) (piece : Piece) (d : Int × Int) : List GoString :=
  let position := getCoordinatePosition (piece.row + d.1) (piece.col + d.2)
  if b.canMoveTo position piece.colour = Except.ok true then [position] else []

/-- A slide from (row, col) in direction (dr, dc), at most `n` squares long: it
goes on over empty squares, stops at and includes an opponent, stops at and
excludes a piece of the same side. -/
def slide (b : Board) (colour : Colour) (dr dc : Int) : Nat → Int → Int → List GoString
  | 0, _, _ => []
  | n + 1, row, col =>
    let position := getCoordinatePosition (row + dr) (col + dc)
    if b.isEmptyAt position = Except.ok true then
      position :: slide b colour dr dc n (row + dr) (col + dc)
    else if b.canMoveTo position colour = Except.ok true then [position]
    else []

/-- The four diagonal directions. -/
def diagonals : List (Int × Int) := [(-1, -1), (-1, 1), (1, -1), (1, 1)]

/-- The four directions along ranks and files. -/
def straights : List (Int × Int) := [(-1, 0), (1, 0), (0, -1), (0, 1)]

/-- The eight L-shaped offsets. -/
def knightOffsets : List (Int × Int) :=
  [(-2, -1), (-2, 1), (-1, -2), (-1, 2), (1, -2), (1, 2), (2, -1), (2, 1)]

/-- The slides of a piece along the given directions. -/
def slides (b : Board) (piece : Piece) (dirs : List (Int × Int)) : List GoString :=
  (dirs.map (fun d => slide b piece.colour d.1 d.2 boardSize piece.row piece.col)).flatten

/-- A diagonal capture of a pawn: onto a square occupied by an opposing piece
only. -/
def pawnCapture (b : Board) (piece : Piece) (dr dc : Int) : List GoString :=
  let position := getCoordinatePosition (piece.row + dr) (piece.col + dc)
  if b.isEmptyAt position = Except.ok false ∧ b.canMoveTo position piece.colour = Except.ok true
  then [position] else []

/-- The advance of a pawn: one square forward if empty, two from the starting
rank if both squares are empty. -/
def pawnForward (b : Board) (piece : Piece) (dr startRow : Int) : List GoString :=
  let one := getCoordinatePosition (piece.row + dr) piece.col
  let two := getCoordinatePosition (piece.row + 2 * dr) piece.col
  if b.isEmptyAt one = Except.ok true then
    if piece.row = startRow ∧ b.isEmptyAt two = Except.ok true then [one, two] else [one]
  else []

/-- The moves of a pawn: its advance and the two diagonal captures.  White
moves towards row 0 (rank 8) and starts on row 6 (rank 2). -/
def pawnMoves (b : Board) (piece : Piece) : List GoString :=
  let dr : Int := if piece.colour = Colour.white then -1 else 1
  let startRow : Int := if piece.colour = Colour.white then 6 else 1
  pawnForward b piece dr startRow ++ pawnCapture b piece dr (-1) ++ pawnCapture b piece dr 1

/-- Modelled from the spec: `getMoves`, missing with `piece.go`: the
pseudo-legal destinations of section 4.2, by kind of piece. -/
def getMoves (b : Board) (piece : Piece) : List GoString :=
  let kind := kindOf piece.sign
  if kind = 80 then pawnMoves b piece
  else if kind = 78 then (knightOffsets.map (step b piece)).flatten
  else if kind = 66 then slides b piece diagonals
  else if kind = 82 then slides b piece straights
  else if kind = 81 then slides b piece (diagonals ++ straights)
  else if kind = 75 then ((diagonals ++ straights).map (step b piece)).flatten
  else []

/-- Modelled from the spec: `isKing`, missing with `piece.go`. -/
def isKing (piece : Piece) : Bool := decide (kindOf piece.sign = 75)

/-- Modelled from the spec: the operations of `piece.go`; the symbol of a
piece is its sign, the King symbols are `K` and `k`. -/
def ops : PieceOps :=
  { WhiteKing := [75]
    BlackKing := [107]
    String := fun sign _ => sign
    isKing := isKing
    createPiece := createPiece
    getMoves := getMoves }

end SpecPieces

/-! ## Invariants of the boards the program builds -/

/-- Position sync: every piece on the board stores the row and the column of
the square it stands on. -/
def Board.InSync (b : Board) : Prop :=
  ∀ (s : SquareRef) (piece : Piece), b.squares s = some piece →
    piece.row = SquareRef.row s ∧ piece.col = SquareRef.col s

/-- The pseudo-legal destinations `getMoves` returns are squares `canMoveTo`
accepts for the piece: on the board, and empty or held by another colour. -/
def PieceOps.MovesSound (E : PieceOps) : Prop :=
  ∀ (b : Board) (piece : Piece) (position : GoString),
    position ∈ E.getMoves b piece → b.canMoveTo position piece.colour = Except.ok true

/-- The pieces that bear the King symbol `getKingPosition colour` looks for are
of that colour. -/
def Board.KingOwn (E : PieceOps) (b : Board) (colour : Colour) : Prop :=
  ∀ (s : SquareRef) (piece : Piece), b.squares s = some piece →
    E.pieceString piece = E.kingSymbol colour → piece.colour = colour

/-- The King of a colour is on the board. -/
def Board.HasKing (E : PieceOps) (b : Board) (colour : Colour) : Prop :=
  ∃ s : SquareRef, b.holdsKing E (E.kingSymbol colour) s = true

/-- The piece `createPiece` returns stores the row and column it was given. -/
def PieceOps.CreatesInPlace (E : PieceOps) : Prop :=
  ∀ (sign : GoString) (row col : Int),
    (E.createPiece sign row col).row = row ∧ (E.createPiece sign row col).col = col

/-- A check of `InSync` square by square. -/
def Board.inSyncCheck (b : Board) : Bool :=
  allSquares.all (fun s =>
    match b.squares s with
    | none => true
    | some piece => decide (piece.row = SquareRef.row s ∧ piece.col = SquareRef.col s))

/-- A check of `KingOwn` square by square. -/
def Board.kingOwnCheck (E : PieceOps) (b : Board) (colour : Colour) : Bool :=
  allSquares.all (fun s =>
    match b.squares s with
    | none => true
    | some piece =>
      decide (E.pieceString piece = E.kingSymbol colour → piece.colour = colour))

/-! ## Auxiliary definitions for the statements -/

/-- Steps 1 to 5 of `Board.execute`: all it does before it calls `movePiece`.
The result is the `Move` to apply, the error value `checkMove` returned, or a
panic. -/
def Board.validate (E : PieceOps) (b : Board) (command : GoString) (colour : Colour) :
    Except Panic (Except MoveError Move) × Board :=
  match b.checkInCheck E command colour with
  | (Except.error e, b1) => (Except.error e, b1)
  | (Except.ok _, b1) =>
    match splitOn 32 command with
    | [origin, destination] => b1.checkMove E origin destination colour
    | _ => (Except.error Panic.illegalMove, b1)

/-- The capture list of a side. -/
def Board.captures (b : Board) (colour : Colour) : List GoString :=
  match colour with
  | Colour.white => b.whiteCaptures
  | Colour.black => b.blackCaptures
  | Colour.undecided => []

/-- What `checkMove` has established when it returns a `Move`. -/
structure Board.Checked (E : PieceOps) (b : Board) (origin destination : GoString)
    (colour : Colour) (move : Move) : Prop where
  origin_eq : b.getSquare origin = Except.ok (some move.squareFrom)
  destination_eq : b.getSquare destination = Except.ok (some move.squareTo)
  occupant : b.squares move.squareFrom = some move.piece
  side : move.piece.colour = colour
  pseudoLegal : destination ∈ E.getMoves b move.piece
  noSelfCheck : (b.movePiece (some move.piece) move.squareFrom move.squareTo).2.inCheck E colour
    = Except.ok false

/-- Row-major order of the squares: `s` is visited before `t` by the loops
`for i { for j { ... } }`. -/
def SquareRef.before (s t : SquareRef) : Prop :=
  s.1 < t.1 ∨ (s.1 = t.1 ∧ s.2 < t.2)

instance (s t : SquareRef) : Decidable (SquareRef.before s t) := by
  unfold SquareRef.before
  exact inferInstance

/-! ## Concrete boards -/

namespace Example

open SpecPieces

/-- The board `setup` builds from the given placements, with empty capture
lists. -/
def place (l : List (List Char × List Char)) : Board :=
  (NewBoard.setup ops (l.map (fun x => (ascii x.1, ascii x.2))) [] []).2

/-- White King e1, White Pawn e2, Black King e8. -/
def pawnBoard : Board :=
  place [(['e', '1'], ['K']), (['e', '2'], ['P']), (['e', '8'], ['k'])]

/-- White King e1, White Bishop d1, Black Rook e8, Black King a8: the rook
checks the White King along the e-file. -/
def rookCheckBoard : Board :=
  place [(['e', '1'], ['K']), (['d', '1'], ['B']), (['e', '8'], ['r']), (['a', '8'], ['k'])]

/-- White King e1, Black Rook e8, Black Knight d3, Black King a8: the rook and
the knight both check the White King. -/
def doubleCheckBoard : Board :=
  place [(['e', '1'], ['K']), (['e', '8'], ['r']), (['d', '3'], ['n']), (['a', '8'], ['k'])]

/-- White King e1, White Rook a1, Black Rook a8, Black King h8. -/
def captureBoard : Board :=
  place [(['e', '1'], ['K']), (['a', '1'], ['R']), (['a', '8'], ['r']), (['h', '8'], ['k'])]

/-- White King e1, White Bishop e2, Black Rook e8, Black King a8: the bishop
shields the White King from the rook. -/
def pinBoard : Board :=
  place [(['e', '1'], ['K']), (['e', '2'], ['B']), (['e', '8'], ['r']), (['a', '8'], ['k'])]

/-- White King e1 and Black Queen e2, nothing else. -/
def queenBoard : Board :=
  place [(['e', '1'], ['K']), (['e', '2'], ['q'])]

/-- The square with the given row and column index. -/
def sq (row col : Fin 8) : SquareRef := (row, col)

/-- The command `e2 e4`. -/
def e2e4 : GoString := ascii ['e', '2'] ++ space ++ ascii ['e', '4']

/-- The command `e2 e5`. -/
def e2e5 : GoString := ascii ['e', '2'] ++ space ++ ascii ['e', '5']

/-- The command `e2 d3`. -/
def e2d3 : GoString := ascii ['e', '2'] ++ space ++ ascii ['d', '3']

/-- The command `a1 a2`. -/
def a1a2 : GoString := ascii ['a', '1'] ++ space ++ ascii ['a', '2']

/-- The command `e2x e4`: the origin token has a trailing character. -/
def e2xe4 : GoString := ascii ['e', '2', 'x'] ++ space ++ ascii ['e', '4']

/-- The command ` e4`: the origin token is empty. -/
def blank_e4 : GoString := space ++ ascii ['e', '4']

/-- A game on `pawnBoard`, White to play the first move. -/
def pawnGame : ChessGame := { board := pawnBoard, movesCount := 1, curColour := Colour.white }

/-- A game on `rookCheckBoard`, White to play the first move. -/
def rookCheckGame : ChessGame :=
  { board := rookCheckBoard, movesCount := 1, curColour := Colour.white }

end Example

/-! # Theorems -/

/-! ## Squares and coordinates -/

theorem getSquare_any (b c : Board) (position : GoString) :
    b.getSquare position = c.getSquare position := rfl

theorem getSquare_coord_new : ∀ i j : Fin 8,
    NewBoard.getSquare (getCoordinatePosition (SquareRef.row (i, j)) (SquareRef.col (i, j)))
      = Except.ok (some (i, j)) := by
  decide

theorem getSquare_coord (b : Board) (s : SquareRef) :
    b.getSquare (getCoordinatePosition (SquareRef.row s) (SquareRef.col s))
      = Except.ok (some s) := by
  rw [getSquare_any b NewBoard]
  exact getSquare_coord_new s.1 s.2

theorem mem_allSquares_aux : ∀ i j : Fin 8, (i, j) ∈ allSquares := by decide

theorem mem_allSquares (s : SquareRef) : s ∈ allSquares := mem_allSquares_aux s.1 s.2

theorem inSync_of_check (b : Board) (h : b.inSyncCheck = true) : b.InSync := by
  intro s piece hs
  have := (List.all_eq_true.mp h) s (mem_allSquares s)
  simpa [hs] using this

theorem kingOwn_of_check (E : PieceOps) (b : Board) (colour : Colour)
    (h : b.kingOwnCheck E colour = true) : b.KingOwn E colour := by
  intro s piece hs hk
  have := (List.all_eq_true.mp h) s (mem_allSquares s)
  simp only [hs, decide_eq_true_eq] at this
  exact this hk

/-! ## movePiece -/

theorem captured_squares (b : Board) (q : Piece) : (b.captured q).squares = b.squares := by
  unfold Board.captured
  cases getOpponentColour q.colour <;> rfl

theorem movePiece_fst (b : Board) (p : Piece) (sf st : SquareRef) :
    (b.movePiece (some p) sf st).1 = Except.ok () := rfl

theorem movePiece_squares (b : Board) (p : Piece) (sf st : SquareRef) :
    (b.movePiece (some p) sf st).2.squares =
      Function.update (Function.update b.squares sf none) st
        (some { p with row := SquareRef.row st, col := SquareRef.col st }) := by
  unfold Board.movePiece
  cases h : b.squares st <;>
    simp [Board.setPiece, captured_squares, Function.update_idem]

theorem movePiece_eq (b : Board) (p : Piece) (sf st : SquareRef) :
    b.movePiece (some p) sf st = (Except.ok (), (b.movePiece (some p) sf st).2) := rfl

/-- Moving a piece there and back and putting the captured piece back gives the
squares one started from, when the piece stored the coordinates of its square. -/
theorem restore_squares (b : Board) (p : Piece) (sf st : SquareRef)
    (hp : b.squares sf = some p)
    (hrow : p.row = SquareRef.row sf) (hcol : p.col = SquareRef.col sf) :
    let b1 := (b.movePiece (some p) sf st).2
    let b2 := (b1.movePiece (some p) st sf).2
    (b2.setPiece st (if st = sf then b2.squares sf else b.squares st)).squares = b.squares := by
  intro b1 b2
  have hpp : ({ p with row := SquareRef.row sf, col := SquareRef.col sf } : Piece) = p := by
    cases p; simp_all
  have h2 : b2.squares = Function.update (Function.update b1.squares st none) sf (some p) := by
    show ((b1.movePiece (some p) st sf).2).squares = _
    rw [movePiece_squares, hpp]
  have h1 : b1.squares = Function.update (Function.update b.squares sf none) st
        (some { p with row := SquareRef.row st, col := SquareRef.col st }) :=
    movePiece_squares b p sf st
  funext x
  simp only [Board.setPiece, h2, h1]
  by_cases hst : st = sf
  · subst hst
    by_cases hx : x = st
    · subst hx; simp [hp]
    · simp [Function.update, hx]
  · by_cases hx : x = st
    · subst hx; simp [hst]
    · by_cases hx2 : x = sf
      · subst hx2; simp [Function.update, hst, hx, hp]
      · simp [Function.update, hst, hx, hx2]

theorem board_eta (b : Board) (sq : SquareRef → Option Piece) (h : sq = b.squares) :
    ({ b with squares := sq } : Board) = b := by
  cases b; simp_all

theorem moveWillCauseSelfCheck_eq (E : PieceOps) (b : Board) (positionFrom positionTo : GoString)
    (colour : Colour) (sf st : SquareRef) (p : Piece)
    (hf : b.getSquare positionFrom = Except.ok (some sf))
    (ht : b.getSquare positionTo = Except.ok (some st))
    (hp : b.squares sf = some p)
    (hrow : p.row = SquareRef.row sf) (hcol : p.col = SquareRef.col sf) :
    b.moveWillCauseSelfCheck E positionFrom positionTo colour =
      match (b.movePiece (some p) sf st).2.inCheck E colour with
      | Except.error e =>
        (Except.error e, { b with squares := (b.movePiece (some p) sf st).2.squares })
      | Except.ok r => (Except.ok r, b) := by
  unfold Board.moveWillCauseSelfCheck
  simp only [hf, ht, hp]
  rw [movePiece_eq b p sf st]
  simp only
  cases hc : (b.movePiece (some p) sf st).2.inCheck E colour with
  | error e => rfl
  | ok r =>
    simp only
    rw [movePiece_eq _ p st sf]
    simp only
    congr 1
    exact board_eta b _ (restore_squares b p sf st hp hrow hcol)

/-! ## Position sync holds on the boards `setup` builds -/

theorem newBoard_inSync : NewBoard.InSync := by
  intro s piece h
  cases h

theorem initPiece_inSync (E : PieceOps) (hE : E.CreatesInPlace) (b : Board)
    (position sign : GoString) (hsync : b.InSync) : (b.initPiece E position sign).2.InSync := by
  unfold Board.initPiece
  cases hs : b.getSquare position with
  | error e => exact hsync
  | ok o =>
    cases o with
    | none => exact hsync
    | some square =>
      simp only
      split
      · exact hsync
      · intro s piece h
        simp only [Board.setPiece] at h
        by_cases h1 : s = square
        · subst h1
          simp only [Function.update_same, Option.some.injEq] at h
          subst h
          exact hE sign _ _
        · simp only [Function.update, h1, dite_false] at h
          exact hsync s piece h

theorem setup_inSync (E : PieceOps) (hE : E.CreatesInPlace)
    (initialPositions : List (GoString × GoString)) (whiteCaptures blackCaptures : List GoString) :
    ∀ (b : Board), b.InSync →
      (b.setup E initialPositions whiteCaptures blackCaptures).2.InSync := by
  induction initialPositions with
  | nil => intro b hsync; exact hsync
  | cons ip rest ih =>
    intro b hsync
    unfold Board.setup
    have h1 := initPiece_inSync E hE b ip.1 ip.2 hsync
    rcases hi : b.initPiece E ip.1 ip.2 with ⟨r, b1⟩
    rw [hi] at h1
    cases r with
    | error e => exact h1
    | ok u => exact ih b1 h1

/-! ## The King -/

theorem getKingPosition_of_hasKing (E : PieceOps) (b : Board) (colour : Colour)
    (h : b.HasKing E colour) :
    ∃ k : SquareRef, b.holdsKing E (E.kingSymbol colour) k = true ∧
      b.getKingPosition E colour
        = Except.ok (getCoordinatePosition (SquareRef.row k) (SquareRef.col k)) := by
  obtain ⟨s, hs⟩ := h
  cases hfind : allSquares.find? (b.holdsKing E (E.kingSymbol colour)) with
  | none =>
    have := List.find?_eq_none.mp hfind s (mem_allSquares s)
    exact absurd hs this
  | some k =>
    refine ⟨k, List.find?_some hfind, ?_⟩
    simp only [Board.getKingPosition, hfind]
    rfl

theorem hasKing_of_getKingPosition (E : PieceOps) (b : Board) (colour : Colour)
    (kingPosition : GoString) (h : b.getKingPosition E colour = Except.ok kingPosition) :
    b.HasKing E colour := by
  unfold Board.getKingPosition at h
  cases hfind : allSquares.find? (b.holdsKing E (E.kingSymbol colour)) with
  | none => simp [hfind] at h
  | some k => exact ⟨k, List.find?_some hfind⟩

theorem inCheck_of_hasKing (E : PieceOps) (b : Board) (colour : Colour)
    (h : b.HasKing E colour) : ∃ r, b.inCheck E colour = Except.ok r := by
  obtain ⟨k, _, hk⟩ := getKingPosition_of_hasKing E b colour h
  unfold Board.inCheck
  rw [hk]
  exact ⟨_, rfl⟩

theorem hasKing_of_inCheck (E : PieceOps) (b : Board) (colour : Colour) (r : Bool)
    (h : b.inCheck E colour = Except.ok r) : b.HasKing E colour := by
  unfold Board.inCheck at h
  cases hk : b.getKingPosition E colour with
  | error e => simp [hk] at h
  | ok kp => exact hasKing_of_getKingPosition E b colour kp hk

theorem holdsKing_iff (E : PieceOps) (b : Board) (sym : GoString) (s : SquareRef) :
    b.holdsKing E sym s = true ↔ ∃ p, b.squares s = some p ∧ E.pieceString p = sym := by
  unfold Board.holdsKing Board.squareAt Square.getPiece
  cases h : b.squares s <;> simp

/-- The King is still on the board after a move that does not land on it. -/
theorem hasKing_movePiece (E : PieceOps) (b : Board) (colour : Colour) (p : Piece)
    (sf st k : SquareRef) (hp : b.squares sf = some p)
    (hk : b.holdsKing E (E.kingSymbol colour) k = true) (hne : k ≠ st) :
    (b.movePiece (some p) sf st).2.HasKing E colour := by
  obtain ⟨q, hq, hsym⟩ := (holdsKing_iff E b _ k).mp hk
  by_cases hks : k = sf
  · subst hks
    have hqp : q = p := by rw [hp] at hq; exact (Option.some.inj hq).symm
    subst hqp
    refine ⟨st, (holdsKing_iff E _ _ st).mpr
      ⟨{ q with row := SquareRef.row st, col := SquareRef.col st }, ?_, hsym⟩⟩
    rw [movePiece_squares]; simp
  · refine ⟨k, (holdsKing_iff E _ _ k).mpr ⟨q, ?_, hsym⟩⟩
    rw [movePiece_squares]
    simp [Function.update, hne, hks, hq]

theorem canMoveTo_true (b : Board) (position : GoString) (colour : Colour)
    (h : b.canMoveTo position colour = Except.ok true) :
    ∃ st : SquareRef, b.getSquare position = Except.ok (some st) ∧
      ∀ q, b.squares st = some q → q.colour ≠ colour := by
  unfold Board.canMoveTo at h
  cases hs : b.getSquare position with
  | error e => simp [hs] at h
  | ok o =>
    cases o with
    | none => simp [hs] at h
    | some st =>
      refine ⟨st, rfl, ?_⟩
      intro q hq
      simp [hs, Board.squareAt, Square.getPiece, hq] at h
      exact h

/-- A tentative move of an own piece to a square `canMoveTo` accepts returns,
and leaves the board as it was. -/
theorem moveWillCauseSelfCheck_ok (E : PieceOps) (b : Board) (colour : Colour)
    (hsync : b.InSync) (hown : b.KingOwn E colour) (hking : b.HasKing E colour)
    (sf : SquareRef) (p : Piece) (hp : b.squares sf = some p)
    (positionFrom positionTo : GoString)
    (hf : b.getSquare positionFrom = Except.ok (some sf))
    (hto : b.canMoveTo positionTo colour = Except.ok true) :
    ∃ r, b.moveWillCauseSelfCheck E positionFrom positionTo colour = (Except.ok r, b) ∧
      ∃ st, b.getSquare positionTo = Except.ok (some st) ∧
        (b.movePiece (some p) sf st).2.inCheck E colour = Except.ok r := by
  obtain ⟨st, hst, hfree⟩ := canMoveTo_true b positionTo colour hto
  obtain ⟨k, hk⟩ := hking
  have hne : k ≠ st := by
    intro hks
    subst hks
    obtain ⟨q, hq, hsym⟩ := (holdsKing_iff E b _ k).mp hk
    exact hfree q hq (hown k q hq hsym)
  obtain ⟨r, hr⟩ := inCheck_of_hasKing E _ colour
    (hasKing_movePiece E b colour p sf st k hp hk hne)
  refine ⟨r, ?_, st, hst, hr⟩
  rw [moveWillCauseSelfCheck_eq E b positionFrom positionTo colour sf st p hf hst hp
    (hsync sf p hp).1 (hsync sf p hp).2, hr]

theorem tryMoves_ok (E : PieceOps) (b : Board) (colour : Colour)
    (hsync : b.InSync) (hown : b.KingOwn E colour) (hking : b.HasKing E colour)
    (sf : SquareRef) (p : Piece) (hp : b.squares sf = some p)
    (positionFrom threatenPosition : GoString)
    (hf : b.getSquare positionFrom = Except.ok (some sf)) :
    ∀ (l : List GoString), (∀ d ∈ l, b.canMoveTo d colour = Except.ok true) →
      ∀ acc, ∃ res,
        Board.tryMoves E positionFrom threatenPosition colour l b acc = (Except.ok res, b) := by
  intro l
  induction l with
  | nil => intro _ acc; exact ⟨acc, rfl⟩
  | cons d rest ih =>
    intro hl acc
    obtain ⟨r, hr, _⟩ := moveWillCauseSelfCheck_ok E b colour hsync hown hking sf p hp
      positionFrom d hf (hl d (List.mem_cons_self _ _))
    unfold Board.tryMoves
    rw [hr]
    exact ih (fun d2 hd2 => hl d2 (List.mem_cons_of_mem _ hd2)) _

theorem mem_getAllPieces (b : Board) (colour : Colour) (piece : Piece)
    (h : piece ∈ b.getAllPieces colour) :
    ∃ s, b.squares s = some piece ∧ piece.colour = colour := by
  unfold Board.getAllPieces at h
  obtain ⟨s, _, hs⟩ := List.mem_filterMap.mp h
  refine ⟨s, ?_⟩
  simp only [Board.squareAt, Square.getPiece] at hs
  cases hsq : b.squares s with
  | none => simp [hsq] at hs
  | some q =>
    simp only [hsq] at hs
    by_cases hc : q.colour = colour
    · simp [hc] at hs
      subst hs
      exact ⟨rfl, hc⟩
    · simp [hc] at hs

theorem tryPieces_ok (E : PieceOps) (hE : E.MovesSound) (b : Board) (colour : Colour)
    (hsync : b.InSync) (hown : b.KingOwn E colour) (hking : b.HasKing E colour)
    (threatenPosition : GoString) :
    ∀ (l : List Piece), (∀ piece ∈ l, piece ∈ b.getAllPieces colour) →
      ∀ acc, ∃ res,
        Board.tryPieces E threatenPosition colour l b acc = (Except.ok res, b) := by
  intro l
  induction l with
  | nil => intro _ acc; exact ⟨acc, rfl⟩
  | cons piece rest ih =>
    intro hl acc
    have hrest : ∀ q ∈ rest, q ∈ b.getAllPieces colour :=
      fun q hq => hl q (List.mem_cons_of_mem _ hq)
    unfold Board.tryPieces
    by_cases hking2 : E.isKing piece = true
    · simp only [hking2, if_true]
      exact ih hrest acc
    · simp only [hking2]
      obtain ⟨s, hs, hc⟩ := mem_getAllPieces b colour piece (hl piece (List.mem_cons_self _ _))
      have hf : b.getSquare (getCoordinatePosition piece.row piece.col)
          = Except.ok (some s) := by
        rw [(hsync s piece hs).1, (hsync s piece hs).2]
        exact getSquare_coord b s
      obtain ⟨res, hres⟩ := tryMoves_ok E b colour hsync hown hking s piece hs
        (getCoordinatePosition piece.row piece.col) threatenPosition hf
        (E.getMoves b piece) (fun d hd => hc ▸ hE b piece d hd) acc
      simp only [hres]
      exact ih hrest res

/-- While the King is on the board, `getAvailableMovesByMovingOtherPieces`
returns and leaves the board as it was. -/
theorem getAvailableMovesByMovingOtherPieces_ok (E : PieceOps) (hE : E.MovesSound) (b : Board)
    (colour : Colour) (hsync : b.InSync) (hown : b.KingOwn E colour)
    (hking : b.HasKing E colour) :
    ∃ res, b.getAvailableMovesByMovingOtherPieces E colour = (Except.ok res, b) := by
  obtain ⟨k, _, hk⟩ := getKingPosition_of_hasKing E b colour hking
  unfold Board.getAvailableMovesByMovingOtherPieces Board.getThreateningKingPieces
  simp only [hk]
  split
  · exact tryPieces_ok E hE b colour hsync hown hking _ _ (fun _ h => h) []
  · exact ⟨[], rfl⟩

theorem getAvailableMovesByMovingKing_ok (E : PieceOps) (b : Board) (colour : Colour)
    (hking : b.HasKing E colour) :
    ∃ kingPosition res, b.getKingPosition E colour = Except.ok kingPosition ∧
      b.getAvailableMovesByMovingKing E colour = Except.ok res ∧
      ∀ m ∈ res, ∃ kingMove, m = kingPosition ++ space ++ kingMove := by
  obtain ⟨k, hhold, hk⟩ := getKingPosition_of_hasKing E b colour hking
  obtain ⟨q, hq, _⟩ := (holdsKing_iff E b _ k).mp hhold
  have h2 : b.getAvailableMovesByMovingKing E colour = Except.ok
      (((E.getMoves b q).filter (fun kingMove =>
          !containsMove (b.getReachablePositions E (getOpponentColour colour)) kingMove)).map
        (fun kingMove =>
          getCoordinatePosition (SquareRef.row k) (SquareRef.col k) ++ space ++ kingMove)) := by
    unfold Board.getAvailableMovesByMovingKing
    simp only [hk, getSquare_coord, hq]
  refine ⟨_, _, hk, h2, ?_⟩
  intro m hm
  obtain ⟨km, _, hkm⟩ := List.mem_map.mp hm
  exact ⟨km, hkm.symm⟩

/-- While the King is on the board, `getAvailableMovesInCheck` returns and
leaves the board as it was. -/
theorem getAvailableMovesInCheck_ok (E : PieceOps) (hE : E.MovesSound) (b : Board)
    (colour : Colour) (hsync : b.InSync) (hown : b.KingOwn E colour)
    (hking : b.HasKing E colour) :
    ∃ res, b.getAvailableMovesInCheck E colour = (Except.ok res, b) := by
  obtain ⟨_, km, _, hkm, _⟩ := getAvailableMovesByMovingKing_ok E b colour hking
  obtain ⟨om, hom⟩ := getAvailableMovesByMovingOtherPieces_ok E hE b colour hsync hown hking
  unfold Board.getAvailableMovesInCheck
  simp only [hkm, hom]
  exact ⟨_, rfl⟩

theorem inCheckmate_ok (E : PieceOps) (hE : E.MovesSound) (b : Board)
    (colour : Colour) (hsync : b.InSync) (hown : b.KingOwn E colour)
    (hking : b.HasKing E colour) :
    ∃ r, b.inCheckmate E colour = (Except.ok r, b) := by
  obtain ⟨r, hr⟩ := inCheck_of_hasKing E b colour hking
  obtain ⟨ms, hms⟩ := getAvailableMovesInCheck_ok E hE b colour hsync hown hking
  unfold Board.inCheckmate
  cases r <;> simp only [hr, hms] <;> exact ⟨_, rfl⟩

theorem inCheckmate_snd_of_not_hasKing (E : PieceOps) (b : Board) (colour : Colour)
    (hking : ¬ b.HasKing E colour) :
    b.inCheckmate E colour = (Except.error Panic.kingNotFound, b) := by
  cases hfind : allSquares.find? (b.holdsKing E (E.kingSymbol colour)) with
  | none => simp only [Board.inCheckmate, Board.inCheck, Board.getKingPosition, hfind]
  | some k => exact absurd ⟨k, List.find?_some hfind⟩ hking

/-! ## The movement policies of the specification are sound -/

namespace SpecPieces

theorem canMoveTo_of_isEmptyAt (b : Board) (position : GoString) (colour : Colour)
    (h : b.isEmptyAt position = Except.ok true) : b.canMoveTo position colour = Except.ok true := by
  unfold Board.isEmptyAt at h
  unfold Board.canMoveTo
  cases hs : b.getSquare position with
  | error e => simp [hs] at h
  | ok o =>
    cases o with
    | none => simp [hs] at h
    | some st =>
      simp only [hs, Board.squareAt, Square.hasPiece, Square.getPiece] at h ⊢
      cases hq : b.squares st with
      | none => rfl
      | some q => simp [hq] at h

theorem mem_step (b : Board) (piece : Piece) (d : Int × Int) (position : GoString)
    (h : position ∈ step b piece d) : b.canMoveTo position piece.colour = Except.ok true := by
  unfold step at h
  simp only at h
  split at h
  · rename_i hc
    rw [List.mem_singleton.mp h]
    exact hc
  · simp at h

theorem mem_slide (b : Board) (colour : Colour) (dr dc : Int) (position : GoString) :
    ∀ (n : Nat) (row col : Int), position ∈ slide b colour dr dc n row col →
      b.canMoveTo position colour = Except.ok true := by
  intro n
  induction n with
  | zero => intro row col h; simp [slide] at h
  | succ n ih =>
    intro row col h
    unfold slide at h
    simp only at h
    split at h
    · rename_i he
      rcases List.mem_cons.mp h with h1 | h1
      · rw [h1]; exact canMoveTo_of_isEmptyAt b _ colour he
      · exact ih _ _ h1
    · split at h
      · rename_i hc
        rw [List.mem_singleton.mp h]
        exact hc
      · simp at h

theorem mem_slides (b : Board) (piece : Piece) (dirs : List (Int × Int)) (position : GoString)
    (h : position ∈ slides b piece dirs) : b.canMoveTo position piece.colour = Except.ok true := by
  unfold slides at h
  obtain ⟨l, hl, hp⟩ := List.mem_flatten.mp h
  obtain ⟨d, _, hd⟩ := List.mem_map.mp hl
  subst hd
  exact mem_slide b piece.colour d.1 d.2 position _ _ _ hp

theorem mem_steps (b : Board) (piece : Piece) (offsets : List (Int × Int)) (position : GoString)
    (h : position ∈ (offsets.map (step b piece)).flatten) :
    b.canMoveTo position piece.colour = Except.ok true := by
  obtain ⟨l, hl, hp⟩ := List.mem_flatten.mp h
  obtain ⟨d, _, hd⟩ := List.mem_map.mp hl
  subst hd
  exact mem_step b piece d position hp

theorem mem_pawnCapture (b : Board) (piece : Piece) (dr dc : Int) (position : GoString)
    (h : position ∈ pawnCapture b piece dr dc) :
    b.canMoveTo position piece.colour = Except.ok true := by
  unfold pawnCapture at h
  simp only at h
  split at h
  · rename_i hc
    rw [List.mem_singleton.mp h]
    exact hc.2
  · simp at h

theorem mem_pawnForward (b : Board) (piece : Piece) (dr startRow : Int) (position : GoString)
    (h : position ∈ pawnForward b piece dr startRow) :
    b.canMoveTo position piece.colour = Except.ok true := by
  unfold pawnForward at h
  simp only at h
  split at h
  · rename_i he
    split at h
    · rename_i he2
      rcases List.mem_cons.mp h with h3 | h3
      · rw [h3]; exact canMoveTo_of_isEmptyAt b _ _ he
      · rw [List.mem_singleton.mp h3]; exact canMoveTo_of_isEmptyAt b _ _ he2.2
    · rw [List.mem_singleton.mp h]; exact canMoveTo_of_isEmptyAt b _ _ he
  · simp at h

theorem mem_pawnMoves (b : Board) (piece : Piece) (position : GoString)
    (h : position ∈ pawnMoves b piece) : b.canMoveTo position piece.colour = Except.ok true := by
  unfold pawnMoves at h
  simp only at h
  rcases List.mem_append.mp h with h1 | h1
  · rcases List.mem_append.mp h1 with h2 | h2
    · exact mem_pawnForward b piece _ _ position h2
    · exact mem_pawnCapture b piece _ _ position h2
  · exact mem_pawnCapture b piece _ _ position h1

/-- The pseudo-legal destinations of section 4.2 are on the board and empty or
held by an opponent. -/
theorem movesSound : ops.MovesSound := by
  intro b piece position h0
  have h : position ∈ getMoves b piece := h0
  unfold getMoves at h
  simp only at h
  split at h
  · exact mem_pawnMoves b piece position h
  · split at h
    · exact mem_steps b piece _ position h
    · split at h
      · exact mem_slides b piece _ position h
      · split at h
        · exact mem_slides b piece _ position h
        · split at h
          · exact mem_slides b piece _ position h
          · split at h
            · exact mem_steps b piece _ position h
            · simp at h

end SpecPieces

/-! ## Validation leaves the board as it was -/

theorem containsMove_iff (moves : List GoString) (move : GoString) :
    containsMove moves move = true ↔ move ∈ moves := by
  unfold containsMove
  simp [List.any_eq_true]

theorem execute_eq_validate (E : PieceOps) (b : Board) (command : GoString) (colour : Colour) :
    b.execute E command colour =
      match b.validate E command colour with
      | (Except.error e, b2) => (Except.error e, b2)
      | (Except.ok (Except.error _), b2) => (Except.ok false, b2)
      | (Except.ok (Except.ok move), b2) =>
        match b2.movePiece (some move.piece) move.squareFrom move.squareTo with
        | (Except.error e, b3) => (Except.error e, b3)
        | (Except.ok _, b3) => b3.inCheckmate E (getOpponentColour colour) := by
  unfold Board.execute Board.validate
  rcases b.checkInCheck E command colour with ⟨r, b1⟩
  cases r with
  | error e => rfl
  | ok u =>
    simp only
    generalize splitOn 32 command = tokens
    match tokens with
    | [] => rfl
    | [_] => rfl
    | [_, _] => rfl
    | _ :: _ :: _ :: _ => rfl

theorem checkInCheck_ok (E : PieceOps) (hE : E.MovesSound) (b : Board) (command : GoString)
    (colour : Colour) (hsync : b.InSync) (hown : b.KingOwn E colour)
    (hking : b.HasKing E colour) :
    (b.checkInCheck E command colour).2 = b := by
  obtain ⟨r, hr⟩ := inCheck_of_hasKing E b colour hking
  obtain ⟨ms, hms⟩ := getAvailableMovesInCheck_ok E hE b colour hsync hown hking
  unfold Board.checkInCheck
  cases r
  · simp only [hr]
  · simp only [hr, hms]
    split <;> rfl

theorem checkInCheck_hasKing (E : PieceOps) (b : Board) (command : GoString) (colour : Colour)
    (u : Unit) (h : (b.checkInCheck E command colour).1 = Except.ok u) : b.HasKing E colour := by
  unfold Board.checkInCheck at h
  cases hr : b.inCheck E colour with
  | error e => simp [hr] at h
  | ok r => exact hasKing_of_inCheck E b colour r hr

theorem checkMove_ok (E : PieceOps) (hE : E.MovesSound) (b : Board) (origin destination : GoString)
    (colour : Colour) (hsync : b.InSync) (hown : b.KingOwn E colour)
    (hking : b.HasKing E colour) :
    (b.checkMove E origin destination colour).2 = b ∧
      ∀ move, (b.checkMove E origin destination colour).1 = Except.ok (Except.ok move) →
        b.Checked E origin destination colour move := by
  unfold Board.checkMove
  cases ho : b.getSquare origin with
  | error e => simp
  | ok o =>
    cases o with
    | none => simp
    | some sf =>
      cases hd : b.getSquare destination with
      | error e => simp
      | ok d =>
        cases d with
        | none => simp
        | some st =>
          simp only [Board.squareAt, Square.getPiece]
          cases hp : b.squares sf with
          | none => simp
          | some piece =>
            simp only
            by_cases hc : piece.colour = colour
            · simp only [hc, ne_eq, not_true_eq_false, if_false]
              by_cases hm : containsMove (E.getMoves b piece) destination = true
              · simp only [hm, Bool.not_true, Bool.false_eq_true, if_false]
                have hmem := (containsMove_iff _ _).mp hm
                have hto : b.canMoveTo destination colour = Except.ok true :=
                  hc ▸ hE b piece destination hmem
                obtain ⟨r, hr, st2, hst2, hin⟩ := moveWillCauseSelfCheck_ok E b colour hsync hown
                  hking sf piece hp origin destination ho hto
                have hst : st2 = st := by
                  rw [hd] at hst2
                  exact (Option.some.inj (Except.ok.inj hst2)).symm
                subst hst
                rw [hr]
                cases r
                · refine ⟨rfl, ?_⟩
                  intro move hmove
                  simp only [Except.ok.injEq] at hmove
                  subst hmove
                  exact ⟨ho, hd, hp, hc, hmem, hin⟩
                · simp
              · simp [hm]
            · simp [hc]

/-- Steps 1 to 5 of `execute` leave the board as it was, and a `Move` they
return is the move the command names. -/
theorem validate_ok (E : PieceOps) (hE : E.MovesSound) (b : Board) (command : GoString)
    (colour : Colour) (hsync : b.InSync) (hown : b.KingOwn E colour)
    (hking : b.HasKing E colour) :
    (b.validate E command colour).2 = b ∧
      ∀ move, (b.validate E command colour).1 = Except.ok (Except.ok move) →
        ∃ origin destination, splitOn 32 command = [origin, destination] ∧
          b.Checked E origin destination colour move := by
  have h1 := checkInCheck_ok E hE b command colour hsync hown hking
  unfold Board.validate
  rcases hcc : b.checkInCheck E command colour with ⟨r, b1⟩
  rw [hcc] at h1
  simp only at h1
  subst h1
  cases r with
  | error e => simp
  | ok u =>
    simp only
    split
    · rename_i origin destination hsplit
      obtain ⟨h2, h3⟩ := checkMove_ok E hE b1 origin destination colour hsync hown hking
      exact ⟨h2, fun move hmove => ⟨origin, destination, hsplit, h3 move hmove⟩⟩
    · simp

theorem validate_hasKing (E : PieceOps) (b : Board) (command : GoString) (colour : Colour)
    (res : Except MoveError Move) (h : (b.validate E command colour).1 = Except.ok res) :
    b.HasKing E colour := by
  unfold Board.validate at h
  rcases hcc : b.checkInCheck E command colour with ⟨r, b1⟩
  rw [hcc] at h
  cases r with
  | error e => simp at h
  | ok u =>
    apply checkInCheck_hasKing E b command colour u
    rw [hcc]

/-! ## movePiece keeps the invariants -/

theorem SquareRef.ext_row_col (s t : SquareRef) (hr : SquareRef.row s = SquareRef.row t)
    (hc : SquareRef.col s = SquareRef.col t) : s = t := by
  unfold SquareRef.row at hr
  unfold SquareRef.col at hc
  exact Prod.ext (Fin.ext (by exact_mod_cast hr)) (Fin.ext (by exact_mod_cast hc))

theorem movePiece_inSync (b : Board) (p : Piece) (sf st : SquareRef) (hsync : b.InSync) :
    (b.movePiece (some p) sf st).2.InSync := by
  intro s q hq
  rw [movePiece_squares] at hq
  by_cases h1 : s = st
  · subst h1
    simp only [Function.update_same, Option.some.injEq] at hq
    subst hq
    exact ⟨rfl, rfl⟩
  · by_cases h2 : s = sf
    · subst h2
      simp [Function.update, h1] at hq
    · simp only [Function.update, h1, h2, dite_false] at hq
      exact hsync s q hq

theorem movePiece_kingOwn (E : PieceOps) (b : Board) (colour : Colour) (p : Piece)
    (sf st : SquareRef) (hp : b.squares sf = some p) (hown : b.KingOwn E colour) :
    (b.movePiece (some p) sf st).2.KingOwn E colour := by
  intro s q hq hsym
  rw [movePiece_squares] at hq
  by_cases h1 : s = st
  · subst h1
    simp only [Function.update_same, Option.some.injEq] at hq
    subst hq
    exact hown sf p hp hsym
  · by_cases h2 : s = sf
    · subst h2
      simp [Function.update, h1] at hq
    · simp only [Function.update, h1, h2, dite_false] at hq
      exact hown s q hq hsym

theorem inCheckmate_snd (E : PieceOps) (hE : E.MovesSound) (b : Board)
    (colour : Colour) (hsync : b.InSync) (hown : b.KingOwn E colour) :
    (b.inCheckmate E colour).2 = b := by
  by_cases hking : b.HasKing E colour
  · obtain ⟨r, hr⟩ := inCheckmate_ok E hE b colour hsync hown hking
    rw [hr]
  · rw [inCheckmate_snd_of_not_hasKing E b colour hking]

open SpecPieces Example

/-! ## The claims -/

/-- C1: when `Board.execute` passes all its checks (the restriction while in
check, two tokens, `checkMove` succeeds with a move), the move is the one the
command names, the board after the call is the prior board with
`movePiece(piece at origin, origin square, destination square)` applied, and
the outcome of the call is that of `inCheckmate(getOpponentColour(side))` on
that board.  Boards are in position sync, King symbols belong to their side,
and `getMoves` returns squares `canMoveTo` accepts. -/
theorem execute_applies_move (E : PieceOps) (hE : E.MovesSound) (b : Board)
    (command : GoString) (colour : Colour) (hsync : b.InSync) (hown : b.KingOwn E colour)
    (hopp : b.KingOwn E (getOpponentColour colour)) (move : Move)
    (hpass : (b.validate E command colour).1 = Except.ok (Except.ok move)) :
    (∃ origin destination, splitOn 32 command = [origin, destination] ∧
        b.getSquare origin = Except.ok (some move.squareFrom) ∧
        b.getSquare destination = Except.ok (some move.squareTo)) ∧
      b.squares move.squareFrom = some move.piece ∧
      (b.execute E command colour).2
        = (b.movePiece (some move.piece) move.squareFrom move.squareTo).2 ∧
      (b.execute E command colour).1
        = ((b.movePiece (some move.piece) move.squareFrom move.squareTo).2.inCheckmate E
            (getOpponentColour colour)).1 := by
  have hking := validate_hasKing E b command colour _ hpass
  obtain ⟨h2, h3⟩ := validate_ok E hE b command colour hsync hown hking
  obtain ⟨origin, destination, hsplit, hchk⟩ := h3 move hpass
  have hv : b.validate E command colour = (Except.ok (Except.ok move), b) := Prod.ext hpass h2
  have hex : b.execute E command colour
      = (b.movePiece (some move.piece) move.squareFrom move.squareTo).2.inCheckmate E
          (getOpponentColour colour) := by
    rw [execute_eq_validate, hv]
    simp only
    rw [movePiece_eq]
  refine ⟨⟨origin, destination, hsplit, hchk.origin_eq, hchk.destination_eq⟩,
    hchk.occupant, ?_, ?_⟩
  · rw [hex]
    exact inCheckmate_snd E hE _ _ (movePiece_inSync b _ _ _ hsync)
      (movePiece_kingOwn E b _ _ _ _ hchk.occupant hopp)
  · rw [hex]

theorem execute_applies_move_witness :
    (pawnBoard.validate ops e2e4 Colour.white).1 = Except.ok (Except.ok
        { piece := { sign := [80], colour := Colour.white, row := 6, col := 4 },
          squareFrom := sq 6 4, squareTo := sq 4 4 }) ∧
      (pawnBoard.execute ops e2e4 Colour.white).2
        = (pawnBoard.movePiece
            (some { sign := [80], colour := Colour.white, row := 6, col := 4 })
            (sq 6 4) (sq 4 4)).2 :=
  ⟨by decide,
    (execute_applies_move ops movesSound pawnBoard e2e4 Colour.white
      (inSync_of_check _ (by decide)) (kingOwn_of_check _ _ _ (by decide))
      (kingOwn_of_check _ _ _ (by decide))
      { piece := { sign := [80], colour := Colour.white, row := 6, col := 4 },
        squareFrom := sq 6 4, squareTo := sq 4 4 } (by decide)).2.2.1⟩

/-- C2: on a board with `side`'s King present, if `Board.execute` fails at one
of its validation steps 1 to 5 (it does not reach `movePiece`), then the board
after the call is the board before it: every square's occupant, every piece's
stored row and column, and both capture lists; and the call has panicked or
returned false.  Standing assumptions as for C1: position sync, King symbols
of `side` on pieces of `side`, `getMoves` within `canMoveTo`. -/
theorem execute_failure_frame (E : PieceOps) (hE : E.MovesSound) (b : Board)
    (command : GoString) (colour : Colour) (hsync : b.InSync) (hown : b.KingOwn E colour)
    (hking : b.HasKing E colour)
    (hfail : ∀ move, (b.validate E command colour).1 ≠ Except.ok (Except.ok move)) :
    (b.execute E command colour).2 = b ∧
      ((b.execute E command colour).1 = Except.ok false ∨
        ∃ e, (b.execute E command colour).1 = Except.error e) := by
  obtain ⟨h2, _⟩ := validate_ok E hE b command colour hsync hown hking
  rw [execute_eq_validate]
  rcases hv : b.validate E command colour with ⟨r, b2⟩
  rw [hv] at h2 hfail
  simp only at h2 hfail
  subst h2
  cases r with
  | error e => exact ⟨rfl, Or.inr ⟨e, rfl⟩⟩
  | ok res =>
    cases res with
    | error e => exact ⟨rfl, Or.inl rfl⟩
    | ok move => exact absurd rfl (hfail move)

theorem execute_failure_frame_witness :
    (pinBoard.validate ops e2d3 Colour.white).1
        = Except.ok (Except.error MoveError.causingSelfCheck) ∧
      (pinBoard.execute ops e2d3 Colour.white).2 = pinBoard :=
  ⟨by decide,
    (execute_failure_frame ops movesSound pinBoard e2d3 Colour.white
      (inSync_of_check _ (by decide)) (kingOwn_of_check _ _ _ (by decide))
      ⟨sq 7 4, by decide⟩
      (fun move h => by
        have h1 : (pinBoard.validate ops e2d3 Colour.white).1
            = Except.ok (Except.error MoveError.causingSelfCheck) := by decide
        rw [h1] at h
        cases h)).1⟩

/-- C3 (the code at the failing inputs): on a board where White is not in
check, `checkMove` answers `e2 e5` for the pawn on e2 with the error value
IllegalMove and `e2 d3` for the shielding bishop with CausingSelfCheck, and
`Board.execute` returns `false` without a panic for both, the same result as
for the legal `e2 e4`, which it applies. -/
theorem execute_rejected_move_returns_false :
    pawnBoard.inCheck ops Colour.white = Except.ok false ∧
      (pawnBoard.checkMove ops (ascii ['e', '2']) (ascii ['e', '5']) Colour.white).1
        = Except.ok (Except.error MoveError.illegalMove) ∧
      (pawnBoard.execute ops e2e5 Colour.white).1 = Except.ok false ∧
      (pawnBoard.execute ops e2e4 Colour.white).1 = Except.ok false ∧
      (pawnBoard.execute ops e2e4 Colour.white).2.squares (sq 4 4)
        = some { sign := [80], colour := Colour.white, row := 4, col := 4 } ∧
      pinBoard.inCheck ops Colour.white = Except.ok false ∧
      (pinBoard.checkMove ops (ascii ['e', '2']) (ascii ['d', '3']) Colour.white).1
        = Except.ok (Except.error MoveError.causingSelfCheck) ∧
      (pinBoard.execute ops e2d3 Colour.white).1 = Except.ok false := by
  decide

/-- C4: on a board on which `inCheck(side)` is true, `getAvailableMovesInCheck`
returns its list and leaves the board as it was, and for every command that is
not an element of the list `Board.execute` panics with IllegalMove, whatever
the tokens of the command, and the board is as before.  Standing assumptions
as for C1. -/
theorem execute_in_check_rejects (E : PieceOps) (hE : E.MovesSound) (b : Board)
    (command : GoString) (colour : Colour) (hsync : b.InSync) (hown : b.KingOwn E colour)
    (hcheck : b.inCheck E colour = Except.ok true) :
    ∃ validMoves, b.getAvailableMovesInCheck E colour = (Except.ok validMoves, b) ∧
      (containsMove validMoves command = false →
        b.execute E command colour = (Except.error Panic.illegalMove, b)) := by
  have hking := hasKing_of_inCheck E b colour true hcheck
  obtain ⟨ms, hms⟩ := getAvailableMovesInCheck_ok E hE b colour hsync hown hking
  refine ⟨ms, hms, ?_⟩
  intro hnot
  unfold Board.execute Board.checkInCheck
  simp only [hcheck, hms, hnot, Bool.not_false, if_true]

theorem execute_in_check_rejects_witness :
    rookCheckBoard.inCheck ops Colour.white = Except.ok true ∧
      ∃ validMoves,
        rookCheckBoard.getAvailableMovesInCheck ops Colour.white
          = (Except.ok validMoves, rookCheckBoard) ∧
        (containsMove validMoves a1a2 = false →
          rookCheckBoard.execute ops a1a2 Colour.white
            = (Except.error Panic.illegalMove, rookCheckBoard)) :=
  ⟨by decide,
    execute_in_check_rejects ops movesSound rookCheckBoard a1a2 Colour.white
      (inSync_of_check _ (by decide)) (kingOwn_of_check _ _ _ (by decide)) (by decide)⟩

/-- C5: for on-board positions `from` (occupied) and `to` on a board in
position sync: whenever `moveWillCauseSelfCheck(from, to, side)` returns, with
true or with false, the board is the board before the call (every occupant,
the piece on `to` included, every stored row and column, both capture lists);
and it does return when `side`'s King stands on a square other than `to`. -/
theorem moveWillCauseSelfCheck_frame (E : PieceOps) (b : Board) (hsync : b.InSync)
    (positionFrom positionTo : GoString) (colour : Colour) (sf st : SquareRef)
    (hf : b.getSquare positionFrom = Except.ok (some sf))
    (ht : b.getSquare positionTo = Except.ok (some st))
    (hocc : (b.squares sf).isSome = true) :
    (∀ r b2, b.moveWillCauseSelfCheck E positionFrom positionTo colour = (Except.ok r, b2) →
        b2 = b) ∧
      (∀ k, b.holdsKing E (E.kingSymbol colour) k = true → k ≠ st →
        ∃ r, b.moveWillCauseSelfCheck E positionFrom positionTo colour = (Except.ok r, b)) := by
  obtain ⟨p, hp⟩ := Option.isSome_iff_exists.mp hocc
  have heq := moveWillCauseSelfCheck_eq E b positionFrom positionTo colour sf st p hf ht hp
    (hsync sf p hp).1 (hsync sf p hp).2
  constructor
  · intro r b2 h
    rw [heq] at h
    cases hc : (b.movePiece (some p) sf st).2.inCheck E colour with
    | error e => simp [hc] at h
    | ok r2 =>
      simp only [hc, Prod.mk.injEq] at h
      exact h.2.symm
  · intro k hk hne
    obtain ⟨r, hr⟩ := inCheck_of_hasKing E _ colour
      (hasKing_movePiece E b colour p sf st k hp hk hne)
    exact ⟨r, by rw [heq, hr]⟩

theorem moveWillCauseSelfCheck_frame_witness :
    (rookCheckBoard.moveWillCauseSelfCheck ops (ascii ['d', '1']) (ascii ['e', '2'])
        Colour.white).1 = Except.ok false ∧
      (rookCheckBoard.moveWillCauseSelfCheck ops (ascii ['d', '1']) (ascii ['e', '2'])
        Colour.white).2 = rookCheckBoard := by
  refine ⟨by decide, ?_⟩
  exact (moveWillCauseSelfCheck_frame ops rookCheckBoard (inSync_of_check _ (by decide))
    (ascii ['d', '1']) (ascii ['e', '2']) Colour.white (sq 7 3) (sq 6 4)
    (by decide) (by decide) (by decide)).1 false _ (Prod.ext (by decide) rfl)

/-- C6: for distinct squares `from`, `to` and `piece` the occupant of `from`:
`movePiece(piece, from, to)` returns, and afterwards `from` is empty and the
occupant of `to` is `piece`, with stored row and column those of `to`. -/
theorem movePiece_relocates (b : Board) (piece : Piece) (squareFrom squareTo : SquareRef)
    (hocc : b.squares squareFrom = some piece) (hne : squareFrom ≠ squareTo) :
    (b.movePiece (b.squares squareFrom) squareFrom squareTo).1 = Except.ok () ∧
      (b.movePiece (b.squares squareFrom) squareFrom squareTo).2.squares squareFrom = none ∧
      (b.movePiece (b.squares squareFrom) squareFrom squareTo).2.squares squareTo
        = some { piece with row := SquareRef.row squareTo, col := SquareRef.col squareTo } := by
  rw [hocc]
  refine ⟨rfl, ?_, ?_⟩
  · rw [movePiece_squares]
    simp [Function.update, hne]
  · rw [movePiece_squares]
    simp

theorem movePiece_relocates_witness :
    pawnBoard.squares (sq 6 4)
        = some { sign := [80], colour := Colour.white, row := 6, col := 4 } ∧
      (pawnBoard.movePiece (pawnBoard.squares (sq 6 4)) (sq 6 4) (sq 4 4)).2.squares (sq 6 4)
        = none ∧
      (pawnBoard.movePiece (pawnBoard.squares (sq 6 4)) (sq 6 4) (sq 4 4)).2.squares (sq 4 4)
        = some { sign := [80], colour := Colour.white, row := 4, col := 4 } :=
  ⟨by decide,
    (movePiece_relocates pawnBoard { sign := [80], colour := Colour.white, row := 6, col := 4 }
      (sq 6 4) (sq 4 4) (by decide) (by decide)).2⟩

/-- C7: on a board in position sync, when `to` holds a piece `q` of the colour
opposing `piece`, after `movePiece(piece, from, to)` the capture list of the
mover's side is the old list with `q`'s sign appended, the other side's list is
unchanged, and `q` is in neither `getAllPieces(white)` nor
`getAllPieces(black)`; when `to` is empty both capture lists are unchanged. -/
theorem movePiece_captures (b : Board) (hsync : b.InSync) (piece : Piece)
    (squareFrom squareTo : SquareRef) :
    (∀ q, b.squares squareTo = some q →
        (piece.colour = Colour.white ∧ q.colour = Colour.black ∨
          piece.colour = Colour.black ∧ q.colour = Colour.white) →
        (b.movePiece (some piece) squareFrom squareTo).2.captures piece.colour
            = b.captures piece.colour ++ [q.sign] ∧
          (b.movePiece (some piece) squareFrom squareTo).2.captures
              (getOpponentColour piece.colour)
            = b.captures (getOpponentColour piece.colour) ∧
          q ∉ (b.movePiece (some piece) squareFrom squareTo).2.getAllPieces Colour.white ∧
          q ∉ (b.movePiece (some piece) squareFrom squareTo).2.getAllPieces Colour.black) ∧
      (b.squares squareTo = none →
        (b.movePiece (some piece) squareFrom squareTo).2.whiteCaptures = b.whiteCaptures ∧
          (b.movePiece (some piece) squareFrom squareTo).2.blackCaptures = b.blackCaptures) := by
  constructor
  · intro q hq hopp
    have hgone : ∀ c, q ∉ (b.movePiece (some piece) squareFrom squareTo).2.getAllPieces c := by
      intro c hmem
      obtain ⟨s, hs, _⟩ := mem_getAllPieces _ c q hmem
      rw [movePiece_squares] at hs
      by_cases h1 : s = squareTo
      · subst h1
        simp only [Function.update_same, Option.some.injEq] at hs
        have hcol : piece.colour = q.colour := by rw [← hs]
        rcases hopp with ⟨h2, h3⟩ | ⟨h2, h3⟩ <;> rw [h2, h3] at hcol <;> cases hcol
      · by_cases h2 : s = squareFrom
        · subst h2
          simp [Function.update, h1] at hs
        · simp only [Function.update, h1, h2, dite_false] at hs
          have hqs := hsync s q hs
          have hqt := hsync squareTo q hq
          exact h1 (SquareRef.ext_row_col s squareTo (hqs.1.symm.trans hqt.1)
            (hqs.2.symm.trans hqt.2))
    refine ⟨?_, ?_, hgone _, hgone _⟩
    · rcases hopp with ⟨h2, h3⟩ | ⟨h2, h3⟩ <;>
        simp [Board.movePiece, Board.setPiece, Board.captured, Board.captures, hq, h2, h3,
          getOpponentColour]
    · rcases hopp with ⟨h2, h3⟩ | ⟨h2, h3⟩ <;>
        simp [Board.movePiece, Board.setPiece, Board.captured, Board.captures, hq, h2, h3,
          getOpponentColour]
  · intro hnone
    simp [Board.movePiece, Board.setPiece, hnone]

theorem movePiece_captures_witness :
    captureBoard.squares (sq 0 0)
        = some { sign := [114], colour := Colour.black, row := 0, col := 0 } ∧
      (captureBoard.movePiece (some { sign := [82], colour := Colour.white, row := 7, col := 0 })
          (sq 7 0) (sq 0 0)).2.captures Colour.white = captureBoard.captures Colour.white ++ [[114]] :=
  ⟨by decide,
    ((movePiece_captures captureBoard (inSync_of_check _ (by decide))
      { sign := [82], colour := Colour.white, row := 7, col := 0 } (sq 7 0) (sq 0 0)).1
      { sign := [114], colour := Colour.black, row := 0, col := 0 } (by decide)
      (Or.inl ⟨rfl, rfl⟩)).1⟩

/-- C8 (the code at the failing input): White King e1, White Bishop d1, Black
Rook e8.  The rook is the one piece that threatens the White King; e8 is not
among the bishop's pseudo-legal moves; the bishop's move to e2 leaves the King
out of check; and `getAvailableMovesInCheck(white)` lists `d1 e8`. -/
theorem interposing_piece_is_listed :
    rookCheckBoard.getThreateningKingPieces ops Colour.white
        = Except.ok [{ sign := [114], colour := Colour.black, row := 0, col := 4 }] ∧
      rookCheckBoard.squares (sq 7 3)
        = some { sign := [66], colour := Colour.white, row := 7, col := 3 } ∧
      ops.isKing { sign := [66], colour := Colour.white, row := 7, col := 3 } = false ∧
      containsMove
          (ops.getMoves rookCheckBoard { sign := [66], colour := Colour.white, row := 7, col := 3 })
          (ascii ['e', '8']) = false ∧
      (rookCheckBoard.moveWillCauseSelfCheck ops (ascii ['d', '1']) (ascii ['e', '2'])
          Colour.white).1 = Except.ok false ∧
      (rookCheckBoard.getAvailableMovesInCheck ops Colour.white).1
        = Except.ok
            [ascii ['e', '1'] ++ space ++ ascii ['d', '2'],
             ascii ['e', '1'] ++ space ++ ascii ['f', '2'],
             ascii ['e', '1'] ++ space ++ ascii ['f', '1'],
             ascii ['d', '1'] ++ space ++ ascii ['e', '8']] := by
  decide

/-- C9: when `getThreateningKingPieces(side)` has length at least 2,
`getAvailableMovesByMovingOtherPieces(side)` is empty and every entry of
`getAvailableMovesInCheck(side)` is the King's position, a space and a
destination. -/
theorem double_check_only_king_moves (E : PieceOps) (b : Board) (colour : Colour)
    (threats : List Piece) (hthreats : b.getThreateningKingPieces E colour = Except.ok threats)
    (htwo : 2 ≤ threats.length) :
    b.getAvailableMovesByMovingOtherPieces E colour = (Except.ok [], b) ∧
      ∃ kingPosition validMoves,
        b.getKingPosition E colour = Except.ok kingPosition ∧
        b.getAvailableMovesInCheck E colour = (Except.ok validMoves, b) ∧
        ∀ m ∈ validMoves, ∃ kingMove, m = kingPosition ++ space ++ kingMove := by
  have hother : b.getAvailableMovesByMovingOtherPieces E colour = (Except.ok [], b) := by
    unfold Board.getAvailableMovesByMovingOtherPieces
    rw [hthreats]
    match threats, htwo with
    | _ :: _ :: _, _ => rfl
  have hking : b.HasKing E colour := by
    unfold Board.getThreateningKingPieces at hthreats
    cases hk : b.getKingPosition E colour with
    | error e => simp [hk] at hthreats
    | ok kp => exact hasKing_of_getKingPosition E b colour kp hk
  obtain ⟨kp, km, hkp, hkm, hform⟩ := getAvailableMovesByMovingKing_ok E b colour hking
  refine ⟨hother, kp, km, hkp, ?_, hform⟩
  unfold Board.getAvailableMovesInCheck
  simp only [hkm, hother, List.append_nil]

theorem double_check_only_king_moves_witness :
    doubleCheckBoard.getThreateningKingPieces ops Colour.white
        = Except.ok [{ sign := [114], colour := Colour.black, row := 0, col := 4 },
            { sign := [110], colour := Colour.black, row := 5, col := 3 }] ∧
      doubleCheckBoard.getAvailableMovesByMovingOtherPieces ops Colour.white
        = (Except.ok [], doubleCheckBoard) :=
  ⟨by decide,
    (double_check_only_king_moves ops doubleCheckBoard Colour.white
      [{ sign := [114], colour := Colour.black, row := 0, col := 4 },
        { sign := [110], colour := Colour.black, row := 5, col := 3 }]
      (by decide) (by decide)).1⟩

/-- C10: `inCheckmate(side)` implies `inCheck(side)`, on every board and for
every side; and on the board with White King e1, White Bishop d1 and Black
Rook e8, `inCheck(white)` holds while `inCheckmate(white)` does not. -/
theorem inCheckmate_implies_inCheck :
    (∀ (E : PieceOps) (b : Board) (colour : Colour),
        (b.inCheckmate E colour).1 = Except.ok true → b.inCheck E colour = Except.ok true) ∧
      (rookCheckBoard.inCheck ops Colour.white = Except.ok true ∧
        (rookCheckBoard.inCheckmate ops Colour.white).1 = Except.ok false) := by
  constructor
  · intro E b colour h
    unfold Board.inCheckmate at h
    cases hc : b.inCheck E colour with
    | error e => simp [hc] at h
    | ok r =>
      cases r with
      | false => simp [hc] at h
      | true => rfl
  · decide

/-! ## Position sync is kept by every operation -/

theorem inSync_of_squares (b c : Board) (h : c.squares = b.squares) (hsync : b.InSync) :
    c.InSync := by
  intro s piece hs
  rw [h] at hs
  exact hsync s piece hs

theorem setPiece_inSync (b : Board) (s : SquareRef) (piece : Option Piece) (hsync : b.InSync)
    (hpiece : ∀ p, piece = some p → p.row = SquareRef.row s ∧ p.col = SquareRef.col s) :
    (b.setPiece s piece).InSync := by
  intro x q hq
  simp only [Board.setPiece] at hq
  by_cases hx : x = s
  · subst hx
    simp only [Function.update_same] at hq
    exact hpiece q hq
  · simp only [Function.update, hx, dite_false] at hq
    exact hsync x q hq

theorem movePiece_inSync_any (b : Board) (piece : Option Piece) (sf st : SquareRef)
    (hsync : b.InSync) : (b.movePiece piece sf st).2.InSync := by
  cases piece with
  | some p => exact movePiece_inSync b p sf st hsync
  | none =>
    unfold Board.movePiece
    simp only
    apply setPiece_inSync _ _ _ _ (fun p h => by cases h)
    apply setPiece_inSync _ _ _ _ (fun p h => by cases h)
    cases b.squares st with
    | none => exact hsync
    | some q => exact inSync_of_squares b _ (captured_squares b q) hsync

theorem moveWillCauseSelfCheck_inSync (E : PieceOps) (b : Board)
    (positionFrom positionTo : GoString) (colour : Colour) (hsync : b.InSync) :
    (b.moveWillCauseSelfCheck E positionFrom positionTo colour).2.InSync := by
  unfold Board.moveWillCauseSelfCheck
  cases b.getSquare positionFrom with
  | error e => exact hsync
  | ok squareFrom =>
    cases b.getSquare positionTo with
    | error e => exact hsync
    | ok squareTo =>
      cases squareFrom with
      | none => exact hsync
      | some sf =>
        cases squareTo with
        | none => exact hsync
        | some st =>
          simp only
          have h1 := movePiece_inSync_any b (b.squares sf) sf st hsync
          rcases hm1 : b.movePiece (b.squares sf) sf st with ⟨r1, b1⟩
          rw [hm1] at h1
          cases r1 with
          | error e => exact inSync_of_squares b1 _ rfl h1
          | ok u =>
            simp only
            cases b1.inCheck E colour with
            | error e => exact inSync_of_squares b1 _ rfl h1
            | ok selfInCheck =>
              simp only
              have h2 := movePiece_inSync_any b1 (b.squares sf) st sf h1
              rcases hm2 : b1.movePiece (b.squares sf) st sf with ⟨r2, b2⟩
              rw [hm2] at h2
              cases r2 with
              | error e => exact inSync_of_squares b2 _ rfl h2
              | ok u2 =>
                simp only
                apply inSync_of_squares (b2.setPiece st (if st = sf then b2.squares sf
                  else b.squares st)) _ rfl
                apply setPiece_inSync b2 st _ h2
                intro p hp
                by_cases hst : st = sf
                · rw [if_pos hst] at hp
                  rw [hst]
                  exact h2 sf p hp
                · rw [if_neg hst] at hp
                  exact hsync st p hp

theorem tryMoves_inSync (E : PieceOps) (positionFrom threatenPosition : GoString)
    (colour : Colour) :
    ∀ (l : List GoString) (b : Board) (acc : List GoString), b.InSync →
      (Board.tryMoves E positionFrom threatenPosition colour l b acc).2.InSync := by
  intro l
  induction l with
  | nil => intro b acc hsync; exact hsync
  | cons d rest ih =>
    intro b acc hsync
    unfold Board.tryMoves
    have h1 := moveWillCauseSelfCheck_inSync E b positionFrom d colour hsync
    rcases hm : b.moveWillCauseSelfCheck E positionFrom d colour with ⟨r, b1⟩
    rw [hm] at h1
    cases r with
    | error e => exact h1
    | ok selfCheck => exact ih b1 _ h1

theorem tryPieces_inSync (E : PieceOps) (threatenPosition : GoString) (colour : Colour) :
    ∀ (l : List Piece) (b : Board) (acc : List GoString), b.InSync →
      (Board.tryPieces E threatenPosition colour l b acc).2.InSync := by
  intro l
  induction l with
  | nil => intro b acc hsync; exact hsync
  | cons piece rest ih =>
    intro b acc hsync
    unfold Board.tryPieces
    split
    · exact ih b acc hsync
    · simp only
      have h1 := tryMoves_inSync E (getCoordinatePosition piece.row piece.col) threatenPosition
        colour (E.getMoves b piece) b acc hsync
      rcases hm : Board.tryMoves E (getCoordinatePosition piece.row piece.col) threatenPosition
        colour (E.getMoves b piece) b acc with ⟨r, b1⟩
      rw [hm] at h1
      cases r with
      | error e => exact h1
      | ok moves1 => exact ih b1 _ h1

theorem getAvailableMovesByMovingOtherPieces_inSync (E : PieceOps) (b : Board) (colour : Colour)
    (hsync : b.InSync) : (b.getAvailableMovesByMovingOtherPieces E colour).2.InSync := by
  unfold Board.getAvailableMovesByMovingOtherPieces
  cases b.getThreateningKingPieces E colour with
  | error e => exact hsync
  | ok threats =>
    simp only
    split
    · exact tryPieces_inSync E _ colour _ b [] hsync
    · exact hsync

theorem getAvailableMovesInCheck_inSync (E : PieceOps) (b : Board) (colour : Colour)
    (hsync : b.InSync) : (b.getAvailableMovesInCheck E colour).2.InSync := by
  unfold Board.getAvailableMovesInCheck
  cases b.getAvailableMovesByMovingKing E colour with
  | error e => exact hsync
  | ok kingMoves =>
    simp only
    have h1 := getAvailableMovesByMovingOtherPieces_inSync E b colour hsync
    rcases hm : b.getAvailableMovesByMovingOtherPieces E colour with ⟨r, b1⟩
    rw [hm] at h1
    cases r with
    | error e => exact h1
    | ok otherMoves => exact h1

theorem inCheckmate_inSync (E : PieceOps) (b : Board) (colour : Colour)
    (hsync : b.InSync) : (b.inCheckmate E colour).2.InSync := by
  unfold Board.inCheckmate
  cases b.inCheck E colour with
  | error e => exact hsync
  | ok r =>
    cases r with
    | false => exact hsync
    | true =>
      simp only
      have h1 := getAvailableMovesInCheck_inSync E b colour hsync
      rcases hm : b.getAvailableMovesInCheck E colour with ⟨r, b1⟩
      rw [hm] at h1
      cases r with
      | error e => exact h1
      | ok moves => exact h1

theorem checkInCheck_inSync (E : PieceOps) (b : Board) (command : GoString) (colour : Colour)
    (hsync : b.InSync) : (b.checkInCheck E command colour).2.InSync := by
  unfold Board.checkInCheck
  cases b.inCheck E colour with
  | error e => exact hsync
  | ok r =>
    cases r with
    | false => exact hsync
    | true =>
      simp only
      have h1 := getAvailableMovesInCheck_inSync E b colour hsync
      rcases hm : b.getAvailableMovesInCheck E colour with ⟨r, b1⟩
      rw [hm] at h1
      cases r with
      | error e => exact h1
      | ok moves =>
        simp only
        split <;> exact h1

theorem checkMove_inSync (E : PieceOps) (b : Board) (origin destination : GoString)
    (colour : Colour) (hsync : b.InSync) :
    (b.checkMove E origin destination colour).2.InSync := by
  unfold Board.checkMove
  cases b.getSquare origin with
  | error e => exact hsync
  | ok o =>
    cases o with
    | none => exact hsync
    | some sf =>
      cases b.getSquare destination with
      | error e => exact hsync
      | ok d =>
        cases d with
        | none => exact hsync
        | some st =>
          simp only
          cases (b.squareAt sf).getPiece with
          | none => exact hsync
          | some piece =>
            simp only
            split
            · exact hsync
            · split
              · exact hsync
              · have h1 := moveWillCauseSelfCheck_inSync E b origin destination colour hsync
                rcases hm : b.moveWillCauseSelfCheck E origin destination colour with ⟨r, b1⟩
                rw [hm] at h1
                cases r with
                | error e => exact h1
                | ok r2 => cases r2 <;> exact h1

theorem validate_inSync (E : PieceOps) (b : Board) (command : GoString) (colour : Colour)
    (hsync : b.InSync) : (b.validate E command colour).2.InSync := by
  unfold Board.validate
  have h1 := checkInCheck_inSync E b command colour hsync
  rcases hm : b.checkInCheck E command colour with ⟨r, b1⟩
  rw [hm] at h1
  cases r with
  | error e => exact h1
  | ok u =>
    simp only
    split
    · exact checkMove_inSync E b1 _ _ colour h1
    · exact h1

theorem execute_inSync (E : PieceOps) (b : Board) (command : GoString) (colour : Colour)
    (hsync : b.InSync) : (b.execute E command colour).2.InSync := by
  rw [execute_eq_validate]
  have h1 := validate_inSync E b command colour hsync
  rcases hm : b.validate E command colour with ⟨r, b2⟩
  rw [hm] at h1
  cases r with
  | error e => exact h1
  | ok res =>
    cases res with
    | error e => exact h1
    | ok move =>
      simp only
      rw [movePiece_eq]
      exact inCheckmate_inSync E _ _ (movePiece_inSync b2 _ _ _ h1)


/-! ## Coordinates -/

theorem getCoordinatePosition_bytes : ∀ i j : Fin 8,
    getCoordinatePosition (SquareRef.row (i, j)) (SquareRef.col (i, j))
      = [Fin.ofNat (97 + j.val), Fin.ofNat (56 - i.val)] := by
  decide

/-- C12: for row and col in [0, 8), `getSquare(getCoordinatePosition(row, col))`
is the square of the board with that row and col, `getSquarePosition` of that
square is the same text, and the text is the file byte `'a' + col` followed by
the rank byte `'8' - row`: row 0 is rank 8 and col 0 is file a. -/
theorem coordinate_round_trip (b : Board) (row col : Int)
    (hr0 : 0 ≤ row) (hr : row < 8) (hc0 : 0 ≤ col) (hc : col < 8) :
    ∃ s : SquareRef, SquareRef.row s = row ∧ SquareRef.col s = col ∧
      b.getSquare (getCoordinatePosition row col) = Except.ok (some s) ∧
      getSquarePosition (b.squareAt s) = getCoordinatePosition row col ∧
      getCoordinatePosition row col
        = [Fin.ofNat (97 + col.toNat), Fin.ofNat (56 - row.toNat)] := by
  obtain ⟨r, rfl⟩ := Int.eq_ofNat_of_zero_le hr0
  obtain ⟨c, rfl⟩ := Int.eq_ofNat_of_zero_le hc0
  have hr2 : r < 8 := by exact_mod_cast hr
  have hc2 : c < 8 := by exact_mod_cast hc
  refine ⟨(⟨r, hr2⟩, ⟨c, hc2⟩), rfl, rfl, ?_, rfl, ?_⟩
  · exact getSquare_coord b (⟨r, hr2⟩, ⟨c, hc2⟩)
  · exact getCoordinatePosition_bytes ⟨r, hr2⟩ ⟨c, hc2⟩

theorem coordinate_round_trip_witness :
    ∃ s : SquareRef, SquareRef.row s = 0 ∧ SquareRef.col s = 0 ∧
      NewBoard.getSquare (getCoordinatePosition 0 0) = Except.ok (some s) ∧
      getSquarePosition (NewBoard.squareAt s) = getCoordinatePosition 0 0 ∧
      getCoordinatePosition 0 0 = [Fin.ofNat (97 + (0 : Int).toNat), Fin.ofNat (56 - (0 : Int).toNat)] :=
  coordinate_round_trip NewBoard 0 0 (by decide) (by decide) (by decide) (by decide)

/-- C13: for a position of at least two bytes whose first byte is outside
`'a'..'h'` or whose second byte is outside `'1'..'8'`, `getSquare` returns nil:
it does not panic and it returns no square of the board. -/
theorem getSquare_out_of_range (b : Board) (p0 p1 : Fin 256) (rest : GoString)
    (h : ¬ (97 ≤ p0.val ∧ p0.val ≤ 104) ∨ ¬ (49 ≤ p1.val ∧ p1.val ≤ 56)) :
    b.getSquare (p0 :: p1 :: rest) = Except.ok none := by
  have h0 := p0.isLt
  have h1 := p1.isLt
  unfold Board.getSquare
  simp only [boardSize]
  split
  · rfl
  · rename_i hcol
    split
    · rfl
    · rename_i hrow
      exfalso
      omega

theorem getSquare_out_of_range_witness :
    NewBoard.getSquare (ascii ['e', '9']) = Except.ok none ∧
      NewBoard.getSquare (ascii ['e', '0']) = Except.ok none ∧
      NewBoard.getSquare (ascii ['e', '/']) = Except.ok none ∧
      NewBoard.getSquare (ascii ['A', '1']) = Except.ok none ∧
      NewBoard.getSquare (ascii ['i', '1']) = Except.ok none :=
  ⟨getSquare_out_of_range NewBoard 101 57 [] (by decide),
    getSquare_out_of_range NewBoard 101 48 [] (by decide),
    getSquare_out_of_range NewBoard 101 47 [] (by decide),
    getSquare_out_of_range NewBoard 65 49 [] (by decide),
    getSquare_out_of_range NewBoard 105 49 [] (by decide)⟩

/-- C14 (the code at the failing inputs): `getSquare` of the empty string and of
the one-byte string `e` is a run-time panic, index out of range, and so is
`Board.execute` of the command ` e4`, whose first token is empty. -/
theorem getSquare_short_string_panics :
    NewBoard.getSquare [] = Except.error Panic.indexOutOfRange ∧
      NewBoard.getSquare (ascii ['e']) = Except.error Panic.indexOutOfRange ∧
      splitOn 32 blank_e4 = [[], ascii ['e', '4']] ∧
      (pawnBoard.execute ops blank_e4 Colour.white).1 = Except.error Panic.indexOutOfRange := by
  decide

/-- C15 (the code at the failing input): on the board with a White pawn on e2,
the command `e2x e4`, whose first token has three bytes, passes `checkMove` and
`Board.execute` applies the move e2 to e4. -/
theorem execute_accepts_trailing_bytes :
    splitOn 32 e2xe4 = [ascii ['e', '2', 'x'], ascii ['e', '4']] ∧
      pawnBoard.squares (sq 6 4)
        = some { sign := [80], colour := Colour.white, row := 6, col := 4 } ∧
      pawnBoard.squares (sq 4 4) = none ∧
      (pawnBoard.execute ops e2xe4 Colour.white).1 = Except.ok false ∧
      (pawnBoard.execute ops e2xe4 Colour.white).2.squares (sq 6 4) = none ∧
      (pawnBoard.execute ops e2xe4 Colour.white).2.squares (sq 4 4)
        = some { sign := [80], colour := Colour.white, row := 4, col := 4 } := by
  decide

/-- C16 (the code at the failing input): White plays `e2 e5`, which `checkMove`
rejects as IllegalMove.  `ChessGame.execute` returns false and leaves the turn
and the count as they were, so the loop's next `changeTurn(true)` hands the
turn to Black with the count raised.  A rejection by panic (`a1 a2` while in
check) is followed by `changeTurn(false)`, and the next `changeTurn(true)`
gives the turn back to White with the same count. -/
theorem rejected_move_passes_the_turn :
    (pawnBoard.checkMove ops (ascii ['e', '2']) (ascii ['e', '5']) Colour.white).1
        = Except.ok (Except.error MoveError.illegalMove) ∧
      pawnGame.curColour = Colour.white ∧ pawnGame.movesCount = 1 ∧
      (pawnGame.execute ops e2e5).1 = false ∧
      ((pawnGame.execute ops e2e5).2.changeTurn true).curColour = Colour.black ∧
      ((pawnGame.execute ops e2e5).2.changeTurn true).movesCount = 2 ∧
      (rookCheckBoard.execute ops a1a2 Colour.white).1 = Except.error Panic.illegalMove ∧
      ((rookCheckGame.execute ops a1a2).2.changeTurn true).curColour = Colour.white ∧
      ((rookCheckGame.execute ops a1a2).2.changeTurn true).movesCount = 1 := by
  decide

/-- C11, as stated, fails: on the board with only a White King on e1 and a
Black Queen on e2, `getAvailableMovesInCheck(white)` is not empty and
`inCheckmate(white)` is not true. -/
theorem lone_queen_not_checkmate :
    ¬ (queenBoard.inCheck ops Colour.white = Except.ok true ∧
        (queenBoard.getAvailableMovesInCheck ops Colour.white).1 = Except.ok [] ∧
        (queenBoard.inCheckmate ops Colour.white).1 = Except.ok true) := by
  decide

/-- C11, amended: on the board with only a White King on e1 and a Black Queen
on e2, `inCheck(white)` is true, e2 is among the King's pseudo-legal moves and
not among the squares Black reaches, `getAvailableMovesInCheck(white)` is the
one entry `e1 e2` (the King takes the Queen), and `inCheckmate(white)` is
false. -/
theorem lone_queen_can_be_taken :
    queenBoard.inCheck ops Colour.white = Except.ok true ∧
      containsMove
          (ops.getMoves queenBoard { sign := [75], colour := Colour.white, row := 7, col := 4 })
          (ascii ['e', '2']) = true ∧
      containsMove (queenBoard.getReachablePositions ops Colour.black) (ascii ['e', '2'])
        = false ∧
      (queenBoard.getAvailableMovesInCheck ops Colour.white).1
        = Except.ok [ascii ['e', '1'] ++ space ++ ascii ['e', '2']] ∧
      (queenBoard.inCheckmate ops Colour.white).1 = Except.ok false := by
  decide


/-! ## initPiece and setup -/

theorem initPiece_ok_iff (E : PieceOps) (b : Board) (position sign : GoString) :
    (b.initPiece E position sign).1 = Except.ok () ↔
      ∃ s, b.getSquare position = Except.ok (some s) ∧ b.squares s = none := by
  unfold Board.initPiece
  cases hs : b.getSquare position with
  | error e => simp
  | ok o =>
    cases o with
    | none => simp
    | some s =>
      simp only [Board.squareAt, Square.hasPiece]
      constructor
      · intro h
        refine ⟨s, rfl, ?_⟩
        by_contra hne
        have hsome : (b.squares s).isSome = true := Option.ne_none_iff_isSome.mp hne
        simp [hsome] at h
      · rintro ⟨t, ht, hn⟩
        have hst : s = t := Option.some.inj (Except.ok.inj ht)
        subst hst
        simp [hn]

theorem initPiece_eq_of_ok (E : PieceOps) (b : Board) (position sign : GoString) (s : SquareRef)
    (hs : b.getSquare position = Except.ok (some s)) (hq : b.squares s = none) :
    b.initPiece E position sign
      = (Except.ok (),
          b.setPiece s (some (E.createPiece sign (SquareRef.row s) (SquareRef.col s)))) := by
  unfold Board.initPiece
  simp [hs, Board.squareAt, Square.hasPiece, hq]

theorem initPiece_snd_of_error (E : PieceOps) (b : Board) (position sign : GoString)
    (e : Panic) (h : (b.initPiece E position sign).1 = Except.error e) :
    (b.initPiece E position sign).2 = b := by
  unfold Board.initPiece at h ⊢
  cases hs : b.getSquare position with
  | error e2 => rfl
  | ok o =>
    cases o with
    | none => rfl
    | some s =>
      simp only [hs] at h ⊢
      split
      · rfl
      · rename_i hocc
        simp [hocc] at h

/-- A square that is occupied stays occupied through `initPiece`. -/
theorem initPiece_keeps_occupied (E : PieceOps) (b : Board) (position sign : GoString)
    (s : SquareRef) (hocc : (b.squares s).isSome = true) :
    ((b.initPiece E position sign).2.squares s).isSome = true := by
  unfold Board.initPiece
  cases hs : b.getSquare position with
  | error e => exact hocc
  | ok o =>
    cases o with
    | none => exact hocc
    | some t =>
      simp only
      split
      · exact hocc
      · simp only [Board.setPiece]
        by_cases hst : s = t
        · subst hst; simp
        · simpa [Function.update, hst] using hocc

/-- `setup` panics when one of its placements names a square that is occupied
on the board it starts from. -/
theorem setup_fails_of_occupied (E : PieceOps) (whiteCaptures blackCaptures : List GoString)
    (s : SquareRef) :
    ∀ (l : List (GoString × GoString)) (b : Board), (b.squares s).isSome = true →
      (∃ ip ∈ l, b.getSquare ip.1 = Except.ok (some s)) →
      ∃ e, (b.setup E l whiteCaptures blackCaptures).1 = Except.error e := by
  intro l
  induction l with
  | nil => intro b _ h; obtain ⟨ip, hip, _⟩ := h; cases hip
  | cons ip rest ih =>
    intro b hocc h
    unfold Board.setup
    have hkeep := initPiece_keeps_occupied E b ip.1 ip.2 s hocc
    rcases hi : b.initPiece E ip.1 ip.2 with ⟨r, b1⟩
    rw [hi] at hkeep
    cases r with
    | error e => exact ⟨e, rfl⟩
    | ok u =>
      simp only
      obtain ⟨ip2, hip2, hsq⟩ := h
      rcases List.mem_cons.mp hip2 with h1 | h1
      · subst h1
        have hok : (b.initPiece E ip2.1 ip2.2).1 = Except.ok () := by rw [hi]
        obtain ⟨t, ht, hnone⟩ := (initPiece_ok_iff E b ip2.1 ip2.2).mp hok
        rw [hsq] at ht
        have : s = t := Option.some.inj (Except.ok.inj ht)
        subst this
        rw [hnone] at hocc
        cases hocc
      · exact ih b1 hkeep ⟨ip2, h1, (getSquare_any b1 b ip2.1).trans hsq⟩

/-- C17: `initPiece(position, sign)` panics if and only if `getSquare` gives no
square for the position (it is off the board) or the square is occupied;
otherwise the square holds the piece `createPiece` made for it and every other
square and both capture lists are as before; a failed call leaves the board as
it was.  Hence `setup` panics when a placement is off the board, and when two
placements name the same square. -/
theorem initPiece_fails_iff (E : PieceOps) (b : Board) (position sign : GoString) :
    ((∃ e, (b.initPiece E position sign).1 = Except.error e) ↔
        (∀ s, b.getSquare position ≠ Except.ok (some s)) ∨
          ∃ s, b.getSquare position = Except.ok (some s) ∧ (b.squares s).isSome = true) ∧
      (∀ s, b.getSquare position = Except.ok (some s) → b.squares s = none →
        (b.initPiece E position sign).1 = Except.ok () ∧
        (b.initPiece E position sign).2.squares s
          = some (E.createPiece sign (SquareRef.row s) (SquareRef.col s)) ∧
        (∀ x, x ≠ s → (b.initPiece E position sign).2.squares x = b.squares x) ∧
        (b.initPiece E position sign).2.whiteCaptures = b.whiteCaptures ∧
        (b.initPiece E position sign).2.blackCaptures = b.blackCaptures) ∧
      (∀ e, (b.initPiece E position sign).1 = Except.error e →
        (b.initPiece E position sign).2 = b) ∧
      (∀ (l : List (GoString × GoString)) (whiteCaptures blackCaptures : List GoString),
        (∃ ip ∈ l, ∀ s, b.getSquare ip.1 ≠ Except.ok (some s)) →
        ∃ e, (b.setup E l whiteCaptures blackCaptures).1 = Except.error e) ∧
      (∀ (l1 l2 l3 : List (GoString × GoString)) (ip1 ip2 : GoString × GoString)
        (whiteCaptures blackCaptures : List GoString) (s : SquareRef),
        b.getSquare ip1.1 = Except.ok (some s) → b.getSquare ip2.1 = Except.ok (some s) →
        ∃ e, (b.setup E (l1 ++ ip1 :: l2 ++ ip2 :: l3) whiteCaptures blackCaptures).1
          = Except.error e) := by
  refine ⟨?_, ?_, ?_, ?_, ?_⟩
  · have hiff := initPiece_ok_iff E b position sign
    constructor
    · rintro ⟨e, he⟩
      by_cases hon : ∃ s, b.getSquare position = Except.ok (some s)
      · obtain ⟨s, hs⟩ := hon
        refine Or.inr ⟨s, hs, ?_⟩
        cases hq : b.squares s with
        | some q => rfl
        | none =>
          have := hiff.mpr ⟨s, hs, hq⟩
          rw [he] at this
          cases this
      · exact Or.inl (fun s hs => hon ⟨s, hs⟩)
    · intro h
      cases hr : (b.initPiece E position sign).1 with
      | error e => exact ⟨e, rfl⟩
      | ok u =>
        obtain ⟨s, hs, hq⟩ := hiff.mp hr
        rcases h with h | ⟨t, ht, hocc⟩
        · exact absurd hs (h s)
        · rw [hs] at ht
          have : s = t := Option.some.inj (Except.ok.inj ht)
          subst this
          rw [hq] at hocc
          cases hocc
  · intro s hs hq
    rw [initPiece_eq_of_ok E b position sign s hs hq]
    refine ⟨rfl, ?_, ?_, rfl, rfl⟩
    · simp [Board.setPiece]
    · intro x hx
      simp [Board.setPiece, Function.update, hx]
  · exact fun e he => initPiece_snd_of_error E b position sign e he
  · intro l wc bc
    induction l generalizing b with
    | nil => rintro ⟨ip, hip, _⟩; cases hip
    | cons ip rest ih =>
      rintro ⟨ip2, hip2, hoff⟩
      unfold Board.setup
      rcases hi : b.initPiece E ip.1 ip.2 with ⟨r, b1⟩
      cases r with
      | error e => exact ⟨e, rfl⟩
      | ok u =>
        simp only
        rcases List.mem_cons.mp hip2 with h1 | h1
        · subst h1
          have hok : (b.initPiece E ip2.1 ip2.2).1 = Except.ok () := by rw [hi]
          obtain ⟨t, ht, _⟩ := (initPiece_ok_iff E b ip2.1 ip2.2).mp hok
          exact absurd ht (hoff t)
        · exact ih b1 ⟨ip2, h1, fun s hs => hoff s ((getSquare_any b b1 ip2.1).trans hs)⟩
  · intro l1 l2 l3 ip1 ip2 wc bc s h1 h2
    induction l1 generalizing b with
    | nil =>
      simp only [List.nil_append, List.cons_append]
      unfold Board.setup
      rcases hi : b.initPiece E ip1.1 ip1.2 with ⟨r, b1⟩
      cases r with
      | error e => exact ⟨e, rfl⟩
      | ok u =>
        simp only
        have hok : (b.initPiece E ip1.1 ip1.2).1 = Except.ok () := by rw [hi]
        obtain ⟨t, ht, hnone⟩ := (initPiece_ok_iff E b ip1.1 ip1.2).mp hok
        rw [h1] at ht
        have hst : s = t := Option.some.inj (Except.ok.inj ht)
        subst hst
        have hb1 : b1 = (b.initPiece E ip1.1 ip1.2).2 := by rw [hi]
        have hocc : (b1.squares s).isSome = true := by
          rw [hb1, initPiece_eq_of_ok E b ip1.1 ip1.2 s h1 hnone]
          simp [Board.setPiece]
        exact setup_fails_of_occupied E wc bc s _ b1 hocc
          ⟨ip2, by simp, (getSquare_any b1 b ip2.1).trans h2⟩
    | cons ip rest ih =>
      simp only [List.cons_append]
      unfold Board.setup
      rcases hi : b.initPiece E ip.1 ip.2 with ⟨r, b1⟩
      cases r with
      | error e => exact ⟨e, rfl⟩
      | ok u =>
        simp only
        have := ih b1 ((getSquare_any b1 b ip1.1).trans h1) ((getSquare_any b1 b ip2.1).trans h2)
        simpa using this

/-! ## The King is found in loop order -/

theorem allSquares_pairwise : allSquares.Pairwise SquareRef.before := by decide

theorem before_asymm (s t : SquareRef) (h1 : SquareRef.before s t) (h2 : SquareRef.before t s) :
    False := by
  unfold SquareRef.before at h1 h2
  rcases h1 with h1 | ⟨h1, h3⟩ <;> rcases h2 with h2 | ⟨h2, h4⟩
  · exact absurd h2 (not_lt_of_lt h1)
  · rw [h2] at h1; exact lt_irrefl _ h1
  · rw [h1] at h2; exact lt_irrefl _ h2
  · exact absurd h4 (not_lt_of_lt h3)

/-- C18: when some square holds a piece with the side's King symbol,
`getKingPosition(side)` returns the coordinate text of the first such square in
row-major order; when no square does, it panics (King not found).  The symbol
is `WhiteKing` for white and `BlackKing` for black. -/
theorem getKingPosition_first (E : PieceOps) (b : Board) (colour : Colour) :
    ((∃ s, b.holdsKing E (E.kingSymbol colour) s = true) →
        ∃ k, b.holdsKing E (E.kingSymbol colour) k = true ∧
          (∀ x, SquareRef.before x k → b.holdsKing E (E.kingSymbol colour) x = false) ∧
          b.getKingPosition E colour
            = Except.ok (getCoordinatePosition (SquareRef.row k) (SquareRef.col k))) ∧
      ((∀ s, b.holdsKing E (E.kingSymbol colour) s = false) →
        b.getKingPosition E colour = Except.error Panic.kingNotFound) ∧
      E.kingSymbol Colour.white = E.WhiteKing ∧ E.kingSymbol Colour.black = E.BlackKing := by
  refine ⟨?_, ?_, rfl, rfl⟩
  · rintro ⟨s, hs⟩
    cases hfind : allSquares.find? (b.holdsKing E (E.kingSymbol colour)) with
    | none =>
      exact absurd hs (List.find?_eq_none.mp hfind s (mem_allSquares s))
    | some k =>
      obtain ⟨hk, l1, l2, hl, hbefore⟩ := List.find?_eq_some.mp hfind
      refine ⟨k, hk, ?_, ?_⟩
      · intro x hx
        have hpw := allSquares_pairwise
        rw [hl] at hpw
        obtain ⟨_, hp2, hp3⟩ := List.pairwise_append.mp hpw
        have hxmem : x ∈ l1 ++ k :: l2 := hl ▸ mem_allSquares x
        rcases List.mem_append.mp hxmem with h1 | h1
        · have := hbefore x h1
          simpa using this
        · rcases List.mem_cons.mp h1 with h2 | h2
          · subst h2
            exact (before_asymm x x hx hx).elim
          · exact (before_asymm x k hx ((List.pairwise_cons.mp hp2).1 x h2)).elim
      · simp only [Board.getKingPosition, hfind]
        rfl
  · intro hnone
    have hfind : allSquares.find? (b.holdsKing E (E.kingSymbol colour)) = none := by
      apply List.find?_eq_none.mpr
      intro x _
      simp [hnone x]
    simp only [Board.getKingPosition, hfind]

/-! ## The executor and the mover's King -/

theorem validate_of_not_hasKing (E : PieceOps) (b : Board) (command : GoString) (colour : Colour)
    (hking : ¬ b.HasKing E colour) :
    b.validate E command colour = (Except.error Panic.kingNotFound, b) := by
  cases hfind : allSquares.find? (b.holdsKing E (E.kingSymbol colour)) with
  | none =>
    simp only [Board.validate, Board.checkInCheck, Board.inCheck, Board.getKingPosition, hfind]
  | some k => exact absurd ⟨k, List.find?_some hfind⟩ hking

/-- A call of `execute` that changed the board has passed steps 1 to 5 with a
move, and the board it leaves is the board with that move applied. -/
theorem execute_changed (E : PieceOps) (hE : E.MovesSound) (b : Board) (command : GoString)
    (colour : Colour) (hsync : b.InSync) (hown : b.KingOwn E colour)
    (hopp : b.KingOwn E (getOpponentColour colour))
    (hchanged : (b.execute E command colour).2 ≠ b) :
    ∃ move origin destination, splitOn 32 command = [origin, destination] ∧
      b.Checked E origin destination colour move ∧
      (b.execute E command colour).2
        = (b.movePiece (some move.piece) move.squareFrom move.squareTo).2 := by
  by_cases hking : b.HasKing E colour
  · obtain ⟨h2, h3⟩ := validate_ok E hE b command colour hsync hown hking
    rcases hv : b.validate E command colour with ⟨r, b2⟩
    rw [hv] at h2 h3
    simp only at h2 h3
    subst h2
    have hex := execute_eq_validate E b2 command colour
    rw [hv] at hex
    cases r with
    | error e => rw [hex] at hchanged; exact absurd rfl hchanged
    | ok res =>
      cases res with
      | error e => rw [hex] at hchanged; exact absurd rfl hchanged
      | ok move =>
        obtain ⟨origin, destination, hsplit, hchk⟩ := h3 move rfl
        refine ⟨move, origin, destination, hsplit, hchk, ?_⟩
        rw [hex]
        simp only
        rw [movePiece_eq]
        exact inCheckmate_snd E hE _ _ (movePiece_inSync b2 _ _ _ hsync)
          (movePiece_kingOwn E b2 _ _ _ _ hchk.occupant hopp)
  · have hex := execute_eq_validate E b command colour
    rw [validate_of_not_hasKing E b command colour hking] at hex
    rw [hex] at hchanged
    exact absurd rfl hchanged

/-- C19: if `Board.execute` applies the move (the board after the call is not
the board before it), then `inCheck(side)` is false on the resulting board, also
when the mover started in check; the board `moveWillCauseSelfCheck` tested is
the board `movePiece` produces.  Standing assumptions as for C1. -/
theorem execute_leaves_own_king_safe (E : PieceOps) (hE : E.MovesSound) (b : Board)
    (command : GoString) (colour : Colour) (hsync : b.InSync) (hown : b.KingOwn E colour)
    (hopp : b.KingOwn E (getOpponentColour colour))
    (hchanged : (b.execute E command colour).2 ≠ b) :
    (b.execute E command colour).2.inCheck E colour = Except.ok false := by
  obtain ⟨move, origin, destination, _, hchk, hex⟩ :=
    execute_changed E hE b command colour hsync hown hopp hchanged
  rw [hex]
  exact hchk.noSelfCheck

theorem execute_leaves_own_king_safe_witness :
    (pawnBoard.execute ops e2e4 Colour.white).2.squares (sq 6 4) ≠ pawnBoard.squares (sq 6 4) ∧
      (pawnBoard.execute ops e2e4 Colour.white).2.inCheck ops Colour.white
        = Except.ok false :=
  ⟨by decide,
    execute_leaves_own_king_safe ops movesSound pawnBoard e2e4 Colour.white
      (inSync_of_check _ (by decide)) (kingOwn_of_check _ _ _ (by decide))
      (kingOwn_of_check _ _ _ (by decide))
      (fun h => absurd (congrArg (fun c => c.squares (sq 6 4)) h) (by decide))⟩

/-- C20: position sync is an invariant.  On a board where every piece stores
the row and column of its square, the same holds after `movePiece(piece, from,
to)`, after `moveWillCauseSelfCheck` (whether it returns or panics), and after
`Board.execute` (whether it applies the move, rejects it or panics); and the
origin text `getAvailableMovesByMovingOtherPieces` builds from the stored row
and column of a piece `getAllPieces` returned names the square that holds the
piece. -/
theorem position_sync_invariant (E : PieceOps) (b : Board) (hsync : b.InSync) :
    (∀ (piece : Piece) (squareFrom squareTo : SquareRef), b.squares squareFrom = some piece →
        (b.movePiece (some piece) squareFrom squareTo).2.InSync) ∧
      (∀ (positionFrom positionTo : GoString) (colour : Colour),
        (b.moveWillCauseSelfCheck E positionFrom positionTo colour).2.InSync) ∧
      (∀ (command : GoString) (colour : Colour), (b.execute E command colour).2.InSync) ∧
      (∀ (colour : Colour) (ownPiece : Piece), ownPiece ∈ b.getAllPieces colour →
        ∃ s, b.getSquare (getCoordinatePosition ownPiece.row ownPiece.col)
            = Except.ok (some s) ∧ b.squares s = some ownPiece) := by
  refine ⟨?_, ?_, ?_, ?_⟩
  · intro piece sf st _
    exact movePiece_inSync b piece sf st hsync
  · intro pf pt colour
    exact moveWillCauseSelfCheck_inSync E b pf pt colour hsync
  · intro command colour
    exact execute_inSync E b command colour hsync
  · intro colour ownPiece hmem
    obtain ⟨s, hs, _⟩ := mem_getAllPieces b colour ownPiece hmem
    refine ⟨s, ?_, hs⟩
    rw [(hsync s ownPiece hs).1, (hsync s ownPiece hs).2]
    exact getSquare_coord b s

theorem position_sync_invariant_witness :
    pawnBoard.inSyncCheck = true ∧ (pawnBoard.execute ops e2e4 Colour.white).2.InSync :=
  ⟨by decide,
    (position_sync_invariant ops pawnBoard (inSync_of_check _ (by decide))).2.2.1 e2e4
      Colour.white⟩


end GoChess
